import Mathlib

/-!
Verification development for the gallery inventory portal (catalog
synchronization engine).  The JavaScript request handlers in
`src/api/square-upload.js` (third handler, lines 530-689),
`src/api/square-inventory.js`, and the React portal component are shallowly
embedded below.  Strings are modelled as `List Char` (`Str`); JavaScript
semantics (`trim`, `toLowerCase`, regular expressions used by the code) are
reproduced for the ASCII character range the application works with.
-/

set_option maxHeartbeats 1000000

abbrev Str := List Char

/-- ASCII lower-casing, the behaviour of JS `toLowerCase` on ASCII input. -/
def lcChar (c : Char) : Char :=
  if 'A' ≤ c ∧ c ≤ 'Z' then Char.ofNat (c.toNat + 32) else c

/-- ASCII upper-casing, the behaviour of JS `toUpperCase` on ASCII input. -/
def ucChar (c : Char) : Char :=
  if 'a' ≤ c ∧ c ≤ 'z' then Char.ofNat (c.toNat - 32) else c

def lcStr (s : Str) : Str := s.map lcChar

def ucStr (s : Str) : Str := s.map ucChar

/-- JS whitespace (`\s`), restricted to the ASCII range. -/
def isJsSpace (c : Char) : Bool :=
  c = ' ' ∨ c = '\t' ∨ c = '\n' ∨ c = '\r' ∨ c = '\x0b' ∨ c = '\x0c'

/-- The character class `[^\S\n]`: whitespace other than a newline. -/
def wsNotNL (c : Char) : Bool := isJsSpace c && c ≠ '\n'

/-- Remove trailing JS whitespace (the right half of `String.prototype.trim`). -/
def dropTrailingWS : Str → Str
  | [] => []
  | c :: s =>
    match dropTrailingWS s with
    | [] => if isJsSpace c then [] else [c]
    | d :: r => c :: d :: r

/-- JS `String.prototype.trim` (ASCII whitespace). -/
def trimJS (s : Str) : Str := dropTrailingWS (s.dropWhile isJsSpace)

/-- Case-insensitive prefix test (the anchored part of an `/i` regex match). -/
def isPrefixCI : Str → Str → Bool
  | [], _ => true
  | _ :: _, [] => false
  | a :: p, b :: s => (lcChar a = lcChar b : Bool) && isPrefixCI p s

/-- First case-insensitive occurrence of `p` in `s`, returned as the split
`(before the match, suffix starting at the match)`; `none` when `p` does not
occur.  This is the search performed by `String.prototype.match` with an
`/i`-flagged pattern anchored at the literal label. -/
def splitFirstCI (p : Str) : Str → Option (Str × Str)
  | [] => if isPrefixCI p [] then some ([], []) else none
  | c :: s =>
    if isPrefixCI p (c :: s) then some ([], c :: s)
    else (splitFirstCI p s).map (fun ab => (c :: ab.1, ab.2))

/-- The label `Medium:` as searched case-insensitively by the decoder. -/
def medLabel : Str := ['m', 'e', 'd', 'i', 'u', 'm', ':']

/-- The label `Dimensions:`. -/
def dimLabel : Str := ['d', 'i', 'm', 'e', 'n', 's', 'i', 'o', 'n', 's', ':']

/-- The label `Discounts:`. -/
def disLabel : Str := ['d', 'i', 's', 'c', 'o', 'u', 'n', 't', 's', ':']

/-- The literal text `Medium: ` prepended by the encoder. -/
def medPrefix : Str := ['M', 'e', 'd', 'i', 'u', 'm', ':', ' ']

/-- The literal text `Dimensions: `. -/
def dimPrefix : Str := ['D', 'i', 'm', 'e', 'n', 's', 'i', 'o', 'n', 's', ':', ' ']

/-- The literal text `Discounts: `. -/
def disPrefix : Str := ['D', 'i', 's', 'c', 'o', 'u', 'n', 't', 's', ':', ' ']

/-- `square-upload.js` lines 606-612: build the uploaded description from the
free text plus the labelled metadata lines, separated from the free text by a
blank line, and trim the result. -/
def encodeDescription (desc medium dims discounts : Str) : Str :=
  let extraLines : List Str :=
    (if medium ≠ [] then [medPrefix ++ medium] else []) ++
    (if dims ≠ [] then [dimPrefix ++ dims] else []) ++
    (if discounts ≠ [] then [disPrefix ++ discounts] else [])
  if extraLines = [] then trimJS desc
  else trimJS (desc ++ '\n' :: '\n' :: (List.intercalate ['\n'] extraLines))

/-- The value captured by `Label:[^\S\n]*([^\n]*)` at the first
case-insensitive occurrence of `label`. -/
def extractLabel (label : Str) (s : Str) : Option Str :=
  (splitFirstCI label s).map
    (fun ab => ((ab.2.drop label.length).dropWhile wsNotNL).takeWhile (· ≠ '\n'))

/-- `replace(/Label:[^\S\n]*[^\n]*\n?/i, '')`: delete the first
case-insensitively matching labelled line, including one trailing newline. -/
def removeLabelLine (label : Str) (s : Str) : Str :=
  match splitFirstCI label s with
  | none => s
  | some (pre, suf) =>
    pre ++ (((suf.drop label.length).dropWhile wsNotNL).dropWhile (· ≠ '\n')).drop 1

structure DecodedDescription where
  cleanDescription : Str
  medium : Str
  dimensions : Str
deriving DecidableEq, Repr

/-- `square-inventory.js` lines 168-184: recover `medium` and `dimensions`
from the labelled lines of the stored description and strip all three
labelled lines (including `Discounts:`) from the clean description.  The
decoder returns no discounts value; the `Discounts:` line is only removed. -/
def decodeDescription (description : Str) : DecodedDescription :=
  let medium := match extractLabel medLabel description with
    | some v => trimJS v
    | none => []
  let clean1 := if (extractLabel medLabel description).isSome
    then removeLabelLine medLabel description else description
  let dims := match extractLabel dimLabel description with
    | some v => trimJS v
    | none => []
  let clean2 := if (extractLabel dimLabel description).isSome
    then removeLabelLine dimLabel clean1 else clean1
  { cleanDescription := trimJS (removeLabelLine disLabel clean2)
    medium := medium
    dimensions := dims }

/-- `mismatchWithin p t` holds when matching `p` case-insensitively against
`t` hits a definite mismatch before `t` runs out, so no continuation of `t`
can make `p` match at its start. -/
def mismatchWithin : Str → Str → Bool
  | [], _ => false
  | _ :: _, [] => false
  | a :: p, b :: t => if lcChar a = lcChar b then mismatchWithin p t else true

/-- `blocksPrefix p A` holds when `p` cannot start matching at any position
strictly inside `A`, for any continuation. -/
def blocksPrefix (p : Str) : Str → Bool
  | [] => true
  | c :: A => mismatchWithin p (c :: A) && blocksPrefix p A

/-- `p` cannot start matching at any position strictly inside `a`, whatever
follows `a`. -/
def BlocksAll (p a : Str) : Prop :=
  ∀ i, i < a.length → ∀ b : Str, isPrefixCI p (a.drop i ++ b) = false

/-- No case-insensitive occurrence of any of the three labels. -/
def labelFree (s : Str) : Bool :=
  (splitFirstCI medLabel s).isNone && (splitFirstCI dimLabel s).isNone &&
    (splitFirstCI disLabel s).isNone

/-- A metadata field value the codec round-trips: label-free, newline-free
and without leading or trailing whitespace. -/
def fieldValueOk (v : Str) : Bool :=
  labelFree v && !(v.contains '\n') &&
    (v.head?.all (fun c => !(isJsSpace c))) &&
    (v.getLast?.all (fun c => !(isJsSpace c)))

/-- The hypothesis of the claim as stated: no line of the text begins
(case-insensitively) with one of the three labels. -/
def noLabelLineStart (s : Str) : Bool :=
  (s.splitOn '\n').all (fun line =>
    !(isPrefixCI medLabel line) && !(isPrefixCI dimLabel line) &&
      !(isPrefixCI disLabel line))

/-- The part of the encoded description that precedes the label block: the
description with leading whitespace removed, followed by the blank-line
separator when anything remains. -/
def frontD (desc : Str) : Str :=
  match desc.dropWhile isJsSpace with
  | [] => []
  | d :: r => (d :: r) ++ ['\n', '\n']

/-- The separator `" - "` used in category names. -/
def catSep : Str := [' ', '-', ' ']

/-- Split at the last occurrence of `" - "`: `none` when the separator does
not occur, otherwise `(text before, text after)` for the final occurrence
(JS `lastIndexOf`). -/
def splitLastSep : Str → Option (Str × Str)
  | [] => none
  | c :: s =>
    match splitLastSep s with
    | some ab => some (c :: ab.1, ab.2)
    | none =>
      if catSep.isPrefixOf (c :: s) then some ([], (c :: s).drop 3) else none

/-- `square-inventory.js` lines 146-153: split a category name into
`(artistName, type)` at the last `" - "`; a name without the separator is all
artist name with empty type. -/
def splitCategory (name : Str) : Str × Str :=
  match splitLastSep name with
  | some ab => ab
  | none => (name, [])

/-- `square-upload.js` lines 543-552 (`getInitials` helper): first letters of
the whitespace/hyphen separated words, upper-cased; fall back to the first 3
characters upper-cased when fewer than 2 initials result; cap at 4. -/
def isSepChar (c : Char) : Bool := isJsSpace c || c = '-'

/-- Upper-cased first character of every nonempty `[\s-]+`-separated token.
The boolean tracks whether the scan is inside a token. -/
def tokenHeads : Bool → Str → Str
  | _, [] => []
  | inTok, c :: s =>
    if isSepChar c then tokenHeads false s
    else if inTok then tokenHeads true s
    else ucChar c :: tokenHeads true s

def getInitials (name : Str) : Str :=
  if name = [] then ['X', 'X', 'X']
  else
    let initials := tokenHeads false (trimJS name)
    let initials := if initials.length < 2 then ucStr (name.take 3) else initials
    initials.take 4

/-- `square-upload.js` lines 555-558 (`getSkuNumber`): last 4 characters of
the decimal representation of the current timestamp. -/
def getSkuNumber (ts : Nat) : Str :=
  let s := (Nat.repr ts).toList
  s.drop (s.length - 4)

/-- `square-upload.js` line 645: the SKU is the initials followed by the
timestamp-derived number. -/
def mkSku (artistName : Str) (ts : Nat) : Str :=
  getInitials artistName ++ getSkuNumber ts

/-- The item shape the inventory reader hands to the artist filter: only the
artist name and the full category string participate. -/
structure ReaderItem where
  artistName : Str
  category : Str
deriving DecidableEq, Repr

/-- `square-inventory.js` lines 225-230: the per-item filter predicate.  The
item artist name is lower-cased and trimmed; the category is lower-cased
only. -/
def artistFilterKeep (searchName : Str) (it : ReaderItem) : Bool :=
  let itemArtist := trimJS (lcStr it.artistName)
  itemArtist = searchName || searchName.isPrefixOf itemArtist ||
    searchName.isPrefixOf (lcStr it.category)

/-- `square-inventory.js` lines 222-231: when an artist-name query is
supplied, lower-case and trim it and keep the matching items. -/
def filterByArtist (artistName : Str) (items : List ReaderItem) : List ReaderItem :=
  let searchName := trimJS (lcStr artistName)
  items.filter (artistFilterKeep searchName)

/-- Stated from the specification text: keep items whose case-insensitive,
trimmed artist name equals the filter or starts with the filter, or whose
full category string starts with the filter. -/
def specArtistMatch (filterName : Str) (it : ReaderItem) : Bool :=
  let f := trimJS (lcStr filterName)
  let a := trimJS (lcStr it.artistName)
  a = f || f.isPrefixOf a || f.isPrefixOf (lcStr it.category)

/-! ## Catalog reader: batched inventory-count retrieval
(`square-inventory.js` lines 82-117 and 195). -/

structure SqVariation where
  id : Option Str
deriving DecidableEq, Repr

structure SqItem where
  id : Str
  variations : List SqVariation
deriving DecidableEq, Repr

/-- `item.item_data?.variations?.[0]?.id`: only the FIRST variation of each
item is consulted. -/
def firstVariationId (it : SqItem) : Option Str :=
  match it.variations.head? with
  | some v => v.id
  | none => none

/-- Lines 82-84: map each item to its first variation id and drop falsy
entries (`undefined` as well as the empty string). -/
def collectVariationIds (items : List SqItem) : List Str :=
  (items.map (fun it => (firstVariationId it).getD [])).filter (· ≠ [])

/-- One entry of the provider inventory-counts response. `quantity` is the
`parseInt` image of the reported quantity string (`none` models `NaN`). -/
structure SqCount where
  catalogObjectId : Str
  state : Str
  quantity : Option Int
deriving DecidableEq, Repr

def inStockState : Str := ['I', 'N', '_', 'S', 'T', 'O', 'C', 'K']

/-- Structural helper for `chunk100`: the fuel is an upper bound on the
list length, so the `0, _ :: _` branch is never reached when called with
the length itself. -/
def chunk100Fuel : Nat → List Str → List (List Str)
  | _, [] => []
  | 0, _ :: _ => []
  | n + 1, x :: xs => ((x :: xs).take 100) :: chunk100Fuel n ((x :: xs).drop 100)

/-- Lines 90-92: the loop `for (i = 0; i < n; i += 100) slice(i, i + 100)`. -/
def chunk100 (ids : List Str) : List (List Str) :=
  chunk100Fuel ids.length ids

/-- Lines 87-117: issue one counts request per batch and keep entries whose
state is `IN_STOCK`, keyed by `catalog_object_id`; later writes shadow
earlier ones, so the map is consed and looked up front-first.
`parseInt(count.quantity) || 0` is `(quantity).getD 0`. -/
def buildInventoryCounts (resp : List Str → List SqCount) (ids : List Str) :
    List (Str × Int) :=
  (chunk100 ids).foldl
    (fun m batch =>
      (resp batch).foldl
        (fun m2 c =>
          if c.state = inStockState then (c.catalogObjectId, (c.quantity).getD 0) :: m2
          else m2)
        m)
    []

/-- Line 195: `variationId ? (inventoryCounts[variationId] || 0) : 0`. -/
def quantityFor (counts : List (Str × Int)) (variationId : Option Str) : Int :=
  match variationId with
  | some v => if v = [] then 0 else (counts.lookup v).getD 0
  | none => 0

/-! ## Catalog writer (third handler of `square-upload.js`, lines 530-689).
Outbound HTTP responses are supplied by a per-record environment; the calls
the handler issues are recorded as effects.  Request bodies (price, version
tokens, idempotency keys) do not influence any claim and are abstracted
behind the environment. -/

/-- The fields of a Square create-or-update response the handler reads:
`response.ok`, `data.errors?.[0]?.detail`, `data.catalog_object?.id`,
`...variations?.[0]?.id` and `...variations?.[0]?.item_variation_data?.sku`. -/
structure CatalogResp where
  ok : Bool
  errorDetail : Option Str
  objectId : Option Str
  variationId : Option Str
  variationSku : Option Str
deriving DecidableEq, Repr

/-- Responses for the outbound calls one record can issue. -/
structure RecordEnv where
  catSearchId : Option Str
  catCreate : CatalogResp
  repSearchId : Option Str
  repCreate : CatalogResp
  itemWrite : CatalogResp
  invOk : Bool
deriving DecidableEq, Repr

inductive Effect where
  | searchCategory (name : Str)
  | createCategory (name : Str)
  | writeCatalogObject
  | setInventory (variationId : Str) (quantity : Nat)
deriving DecidableEq, Repr

/-- A submitted artwork record (the fields the handler reads). -/
structure UploadItem where
  id : Str
  squareId : Option Str
  variationId : Option Str
  sku : Option Str
  title : Str
  artistName : Str
  type : Str
  medium : Str
  description : Str
  dimensions : Str
  height : Str
  width : Str
  quantity : Option Nat
  discounts : Str
deriving DecidableEq, Repr

/-- One entry of the `results` array. -/
structure WriteResult where
  originalId : Str
  squareId : Option Str
  variationId : Option Str := none
  sku : Option Str := none
  category : Option Str := none
  quantity : Option Nat := none
  success : Bool
  action : Option Str := none
  error : Option Str := none
deriving DecidableEq, Repr

def failedUpdateMsg : Str := "Failed to update".toList

def failedUploadMsg : Str := "Failed to upload to Square".toList

def updatedAction : Str := "updated".toList

def createdAction : Str := "created".toList

/-- Line 604: `item.dimensions || (item.height && item.width ? h" x w" : '')`. -/
def derivedDims (it : UploadItem) : Str :=
  if it.dimensions ≠ [] then it.dimensions
  else if it.height ≠ [] ∧ it.width ≠ [] then
    it.height ++ '"' :: ' ' :: 'x' :: ' ' :: (it.width ++ ['"'])
  else []

/-- Line 670: `const quantity = item.quantity || 1`. -/
def defaultQty : Option Nat → Nat
  | none => 1
  | some 0 => 1
  | some (n + 1) => n + 1

/-- Lines 600-682: process one submitted record.  The UPDATE branch turns a
failed write into a `success:false` result; the CREATE branch throws
(`Except.error`) on a failed item write, and on success issues the
best-effort inventory physical count whose outcome (`env.invOk`) is logged
but never surfaced. -/
def processRecord (it : UploadItem) (env : RecordEnv) (ts : Nat) :
    List Effect × Except Str WriteResult :=
  let categoryName := it.artistName ++ catSep ++ it.type
  let _description :=
    encodeDescription it.description it.medium (derivedDims it) it.discounts
  match it.squareId with
  | some sid =>
    let catEffects :=
      if it.artistName ≠ [] ∧ it.type ≠ [] then
        if (env.catSearchId).isSome then [Effect.searchCategory categoryName]
        else [Effect.searchCategory categoryName, Effect.createCategory categoryName]
      else []
    let effects := catEffects ++ [Effect.writeCatalogObject]
    if env.itemWrite.ok then
      (effects, .ok
        { originalId := it.id
          squareId := some ((env.itemWrite.objectId).getD sid)
          sku := (env.itemWrite.variationSku).orElse (fun _ => it.sku)
          success := true
          action := some updatedAction })
    else
      (effects, .ok
        { originalId := it.id
          squareId := some sid
          success := false
          error := some ((env.itemWrite.errorDetail).getD failedUpdateMsg) })
  | none =>
    let sku := mkSku it.artistName ts
    let catResolve : Option Str × List Effect :=
      match env.catSearchId with
      | some cid => (some cid, [.searchCategory categoryName])
      | none => (env.catCreate.objectId,
          [.searchCategory categoryName, .createCategory categoryName])
    let repResolve : Option Str × List Effect :=
      match env.repSearchId with
      | some rid => (some rid, [.searchCategory it.artistName])
      | none => (env.repCreate.objectId,
          [.searchCategory it.artistName, .createCategory it.artistName])
    let effects0 := catResolve.2 ++ repResolve.2 ++ [Effect.writeCatalogObject]
    if env.itemWrite.ok then
      let variationId := env.itemWrite.variationId
      let quantity := defaultQty it.quantity
      let invEffects :=
        match variationId with
        | some v => if quantity > 0 then [Effect.setInventory v quantity] else []
        | none => []
      (effects0 ++ invEffects, .ok
        { originalId := it.id
          squareId := env.itemWrite.objectId
          variationId := variationId
          sku := some ((env.itemWrite.variationSku).getD sku)
          category := some categoryName
          quantity := some quantity
          success := true
          action := some createdAction })
    else
      (effects0, .error ((env.itemWrite.errorDetail).getD failedUploadMsg))

/-- Lines 596-688: the `for (const item of items)` loop inside the `try`.  A
thrown error (CREATE-path write failure) aborts the loop; the catch block
responds with the error alone, discarding all per-record results. -/
def runBatch : List (UploadItem × RecordEnv × Nat) → Except Str (List WriteResult)
  | [] => .ok []
  | (it, env, ts) :: rest =>
    match (processRecord it env ts).2 with
    | .error e => .error e
    | .ok r => (runBatch rest).map (fun rs => r :: rs)

/-! ## Category resolvers with batch-local caches (second handler of
`square-upload.js`: `getOrCreateReportingCategory`, lines 268-332, and the
display-category resolution with `categoryCache`, lines 343-403). -/

structure CatCreateResp where
  ok : Bool
  errorDetail : Option Str
  newId : Option Str
deriving DecidableEq, Repr

/-- The provider as seen by the resolvers: exact-name category search
(`objects?.[0]?.id`) and category creation. -/
structure CatEnv where
  searchId : Str → Option Str
  create : Str → CatCreateResp

inductive CatEffect where
  | search (name : Str)
  | create (name : Str)
deriving DecidableEq, Repr

/-- Lines 268-332: reporting-category resolver.  The cache stores only
truthy ids, a hit returns immediately with no outbound call; creation
failure returns `null` without caching. -/
def getOrCreateReportingCategory (env : CatEnv) (cache : List (Str × Str))
    (artistName : Str) : Option Str × List (Str × Str) × List CatEffect :=
  match cache.lookup artistName with
  | some cid => (some cid, cache, [])
  | none =>
    match env.searchId artistName with
    | some cid => (some cid, (artistName, cid) :: cache, [.search artistName])
    | none =>
      let resp := env.create artistName
      if resp.ok then
        match resp.newId with
        | some cid =>
          (some cid, (artistName, cid) :: cache, [.search artistName, .create artistName])
        | none => (none, cache, [.search artistName, .create artistName])
      else (none, cache, [.search artistName, .create artistName])

def failedCreateCategoryMsg : Str := "Failed to create category".toList

/-- Lines 343-403: display-category (`Artist - Type`) resolution inside the
item loop.  A cached falsy value does not count as a hit; a failed creation
throws; whatever id the creation returned is cached (line 402). -/
def resolveDisplayCategory (env : CatEnv) (cache : List (Str × Option Str))
    (categoryName : Str) :
    Except Str (Option Str × List (Str × Option Str) × List CatEffect) :=
  match cache.lookup categoryName with
  | some (some cid) => .ok (some cid, cache, [])
  | _ =>
    match env.searchId categoryName with
    | some cid => .ok (some cid, (categoryName, some cid) :: cache, [.search categoryName])
    | none =>
      let resp := env.create categoryName
      if resp.ok then
        .ok (resp.newId, (categoryName, resp.newId) :: cache,
          [.search categoryName, .create categoryName])
      else .error ((resp.errorDetail).getD failedCreateCategoryMsg)

/-! ## Archive and restore (portal component, `handleArchive` lines 288-313
and `handleRestore` lines 315-341).  The provider is modelled as the set of
live catalog item ids together with a fresh-id counter: creating an object
always allocates an id never used before. -/

structure ProviderState where
  nextId : Nat
  catalog : List Nat
deriving DecidableEq, Repr

/-- The ids `listInventory` reports (every live catalog item). -/
def listedIds (st : ProviderState) : List Nat := st.catalog

/-- Provider sanity: live ids are pairwise distinct and below the fresh-id
counter. -/
def providerWF (st : ProviderState) : Prop :=
  st.catalog.Nodup ∧ ∀ i ∈ st.catalog, i < st.nextId

/-- Deleting an item succeeds exactly when it is live, and removes it. -/
def deleteItem (st : ProviderState) (i : Nat) : Bool × ProviderState :=
  if i ∈ st.catalog then (true, ⟨st.nextId, st.catalog.erase i⟩) else (false, st)

/-- Creating an item allocates the next fresh id. -/
def createItem (st : ProviderState) : Nat × ProviderState :=
  (st.nextId, ⟨st.nextId + 1, st.nextId :: st.catalog⟩)

structure PortalItem where
  squareId : Nat
  variationId : Option Nat
  title : Str
deriving DecidableEq, Repr

structure ArchivedRecord where
  squareId : Nat
  variationId : Option Nat
  title : Str
  archivedAt : Str
  archivedBy : Str
deriving DecidableEq, Repr

/-- Lines 288-313: delete upstream; on success append the item to the
archive stamped with `archivedAt`/`archivedBy`. -/
def handleArchive (member : Str) (ts : Str) (st : ProviderState)
    (archive : List ArchivedRecord) (item : PortalItem) :
    ProviderState × List ArchivedRecord × Bool :=
  let r := deleteItem st item.squareId
  if r.1 then
    (r.2, archive ++ [⟨item.squareId, item.variationId, item.title, ts, member⟩], true)
  else (st, archive, false)

/-- The record submitted by `handleRestore`: the destructuring
`const { archivedAt, archivedBy, squareId, variationId, ...itemData }`
drops both provider identifiers, and `id` becomes `Date.now()`. -/
structure RestoreItem where
  id : Nat
  squareId : Option Nat
  variationId : Option Nat
  title : Str
deriving DecidableEq, Repr

def restoreItemOf (a : ArchivedRecord) (ts : Nat) : RestoreItem :=
  ⟨ts, none, none, a.title⟩

inductive UploadOutcome where
  | created (newId : Nat)
  | updated (oldId : Nat)
  | failed
deriving DecidableEq, Repr

/-- The upload endpoint against the stateful provider: a record with a
provider item id takes the UPDATE path (no new object), one without takes
the CREATE path and receives a fresh id when the provider accepts it. -/
def uploadToProvider (createOk : Bool) (st : ProviderState) (it : RestoreItem) :
    ProviderState × UploadOutcome :=
  match it.squareId with
  | some sid => (st, .updated sid)
  | none =>
    if createOk then
      let r := createItem st
      (r.2, .created r.1)
    else (st, .failed)

/-- Lines 315-341: strip provider identifiers and attribution, upload, and
on success drop every archive entry carrying the restored record's old
provider id. -/
def handleRestore (createOk : Bool) (st : ProviderState)
    (archive : List ArchivedRecord) (a : ArchivedRecord) (ts : Nat) :
    ProviderState × List ArchivedRecord × UploadOutcome :=
  let r := uploadToProvider createOk st (restoreItemOf a ts)
  match r.2 with
  | .failed => (st, archive, .failed)
  | outcome => (r.1, archive.filter (fun x => x.squareId != a.squareId), outcome)

/-! ## Concrete fixtures used by witnesses and counterexamples -/

def sampleRespOk : CatalogResp :=
  { ok := true, errorDetail := none, objectId := some ['N', '1'],
    variationId := some ['V', '1'], variationSku := some ['S', 'K', '1'] }

def sampleRespFail : CatalogResp :=
  { ok := false, errorDetail := some ['s', 't', 'a', 'l', 'e'],
    objectId := none, variationId := none, variationSku := none }

def mkSampleItem (n : Char) (sq : Option Str) (q : Option Nat) : UploadItem :=
  { id := [n], squareId := sq, variationId := none, sku := some ['O', 'L', 'D'],
    title := ['T', n], artistName := ['A', 'n', 'n', ' ', 'B'],
    type := ['A', 'r', 't'], medium := ['O', 'i', 'l'], description := [],
    dimensions := [], height := ['2'], width := ['3'], quantity := q,
    discounts := [] }

def c1EnvOk : RecordEnv :=
  ⟨some ['C'], sampleRespOk, some ['R'], sampleRespOk, sampleRespOk, true⟩

def c1EnvFail : RecordEnv :=
  ⟨some ['C'], sampleRespOk, some ['R'], sampleRespOk, sampleRespFail, true⟩

/-- A batch whose first record is a CREATE whose item write fails. -/
def c1BatchAbort : List (UploadItem × RecordEnv × Nat) :=
  [(mkSampleItem '1' none (some 1), c1EnvFail, 0),
   (mkSampleItem '2' none (some 1), c1EnvOk, 0)]

/-- A 3-record batch: UPDATE ok, UPDATE failing (stale token), CREATE ok. -/
def c1BatchMixed : List (UploadItem × RecordEnv × Nat) :=
  [(mkSampleItem '1' (some ['Q', '1']) (some 1), c1EnvOk, 0),
   (mkSampleItem '2' (some ['Q', '2']) (some 1), c1EnvFail, 0),
   (mkSampleItem '3' none (some 1), c1EnvOk, 0)]

def c8Env : RecordEnv :=
  ⟨some ['C'], sampleRespOk, some ['R'], sampleRespOk, sampleRespOk, false⟩

/-- A provider for the resolver witnesses: the search finds nothing and a
create succeeds with id `#name`. -/
def c5Env : CatEnv :=
  { searchId := fun _ => none,
    create := fun n => { ok := true, errorDetail := none, newId := some ('#' :: n) } }

/-- A catalog item carrying two variations. -/
def c4TwoVarItem : SqItem :=
  ⟨['I'], [⟨some ['V', '1']⟩, ⟨some ['V', '2']⟩]⟩

/-- A provider counts table for the C4 witness: `V1` is in stock with
quantity 7, `V2` has only a `SOLD` entry. -/
def c4Resp : List Str → List SqCount := fun batch =>
  (if ['V', '1'] ∈ batch then
    [⟨['V', '1'], inStockState, some 7⟩] else []) ++
  (if ['V', '2'] ∈ batch then
    [⟨['V', '2'], ['S', 'O', 'L', 'D'], some 1⟩] else [])

/-- A description with no LINE starting with a label, but containing
`medium:` mid-line: the spec's hypothesis admits it, the decoder's
unanchored search still matches it. -/
def c2Desc : Str := "uses medium: acrylic".toList

def c2Med : Str := "Oil".toList

def c2Dims : Str := "5 x 7".toList

def c2Dis : Str := "10% off".toList

/-- A genuinely label-free description for the amended-claim witness. -/
def c2WDesc : Str := "A forest scene".toList

/-! ## Helper lemmas -/

lemma getInitials_length_le (name : Str) : (getInitials name).length ≤ 4 := by
  unfold getInitials
  by_cases h : name = []
  · simp [h]
  · simp only [h, if_false]
    split <;> exact List.length_take_le 4 _

lemma splitLastSep_eq_none_of_no_dash (b : Str) (h : '-' ∉ b) :
    splitLastSep b = none := by
  induction b with
  | nil => rfl
  | cons c s ih =>
    have hc : c ≠ '-' := fun hc => h (hc ▸ List.mem_cons_self c s)
    have hs : '-' ∉ s := fun hm => h (List.mem_cons_of_mem c hm)
    rw [splitLastSep, ih hs]
    have : catSep.isPrefixOf (c :: s) = false := by
      cases s with
      | nil => simp [catSep, List.isPrefixOf]
      | cons d s2 =>
        have hd : d ≠ '-' := fun hd => hs (hd ▸ List.mem_cons_self d s2)
        simp [catSep, List.isPrefixOf]
        intro _ hdd
        exact absurd hdd.symm hd
    simp [this]

lemma splitLastSep_sep_append (b : Str) (h : '-' ∉ b) :
    splitLastSep (catSep ++ b) = some ([], b) := by
  have h1 : splitLastSep b = none := splitLastSep_eq_none_of_no_dash b h
  have h2 : splitLastSep (' ' :: b) = none := by
    rw [splitLastSep, h1]
    have : catSep.isPrefixOf (' ' :: b) = false := by
      cases b with
      | nil => simp [catSep, List.isPrefixOf]
      | cons d s2 =>
        have hd : d ≠ '-' := fun hd => h (hd ▸ List.mem_cons_self d s2)
        simp [catSep, List.isPrefixOf]
        intro hdd
        exact absurd hdd.symm hd
    simp [this]
  have h3 : splitLastSep ('-' :: ' ' :: b) = none := by
    rw [splitLastSep, h2]
    simp [catSep, List.isPrefixOf]
  show splitLastSep (' ' :: '-' :: ' ' :: b) = some ([], b)
  rw [splitLastSep, h3]
  simp [catSep, List.isPrefixOf]

lemma splitLastSep_append_of_some (a t : Str) (pre post : Str)
    (h : splitLastSep t = some (pre, post)) :
    splitLastSep (a ++ t) = some (a ++ pre, post) := by
  induction a with
  | nil => simpa using h
  | cons c a2 ih =>
    show splitLastSep (c :: (a2 ++ t)) = _
    rw [splitLastSep, ih]
    rfl

/-! ## Claim theorems -/

/-- Claim C6: the SKU generator yields initials `JFP` for
`Joan Findley-Perls`; a name producing fewer than 2 initials falls back to
its first 3 characters upper-cased (so `X` gives `X`); the initials part
never exceeds 4 characters, hence the SKU length is at most 4 plus the
suffix length. -/
theorem c6_sku_generator :
    getInitials ("Joan Findley-Perls".toList) = "JFP".toList ∧
    getInitials ['X'] = ['X'] ∧
    (∀ name : Str, name ≠ [] → (tokenHeads false (trimJS name)).length < 2 →
      getInitials name = ucStr (name.take 3)) ∧
    (∀ name : Str, (getInitials name).length ≤ 4) ∧
    (∀ (name : Str) (ts : Nat),
      (mkSku name ts).length ≤ 4 + (getSkuNumber ts).length) := by
  refine ⟨by decide, by decide, ?_, getInitials_length_le, ?_⟩
  · intro name hne hlt
    unfold getInitials
    simp only [hne, if_false, if_pos hlt]
    apply List.take_of_length_le
    calc (ucStr (name.take 3)).length = (name.take 3).length := List.length_map _ _
      _ ≤ 3 := List.length_take_le 3 name
      _ ≤ 4 := by omega
  · intro name ts
    unfold mkSku
    rw [List.length_append]
    exact Nat.add_le_add_right (getInitials_length_le name) _

/-- Claim C6 witness: the fallback case applied at the concrete name `X-`. -/
theorem c6_sku_generator_witness :
    getInitials ['X', '-'] = ucStr (['X', '-'].take 3) :=
  c6_sku_generator.2.2.1 ['X', '-'] (by decide) (by decide)

/-- Claim C7: with an artist-name filter, `listInventory` keeps exactly the
items whose case-insensitive trimmed artist name equals or starts with the
filter, or whose full category string starts with the filter; filtering
artists `Jane Doe` and `Jane Doherty` by `jane d` returns both. -/
theorem c7_artist_filter :
    (∀ (filterName : Str) (items : List ReaderItem),
      filterByArtist filterName items = items.filter (specArtistMatch filterName)) ∧
    filterByArtist ("jane d".toList)
        [⟨"Jane Doe".toList, "Jane Doe - Painting".toList⟩,
         ⟨"Jane Doherty".toList, "Jane Doherty - Print".toList⟩] =
      [⟨"Jane Doe".toList, "Jane Doe - Painting".toList⟩,
       ⟨"Jane Doherty".toList, "Jane Doherty - Print".toList⟩] := by
  constructor
  · intro filterName items
    rfl
  · decide

/-- Claim C9: the reader splits a category name at the last `" - "`;
`Jane Doe - Painting` gives `(Jane Doe, Painting)`, `A - B - C` gives
`(A - B, C)`, a name without the separator is all artist name with empty
type, and in general appending `" - "` and a dash-free type splits back. -/
theorem c9_category_split :
    splitCategory ("Jane Doe - Painting".toList) =
      ("Jane Doe".toList, "Painting".toList) ∧
    splitCategory ("Solo Name".toList) = ("Solo Name".toList, []) ∧
    splitCategory ("A - B - C".toList) = ("A - B".toList, "C".toList) ∧
    (∀ s : Str, '-' ∉ s → splitCategory s = (s, [])) ∧
    (∀ a b : Str, '-' ∉ b → splitCategory (a ++ catSep ++ b) = (a, b)) := by
  refine ⟨by decide, by decide, by decide, ?_, ?_⟩
  · intro s h
    unfold splitCategory
    rw [splitLastSep_eq_none_of_no_dash s h]
  · intro a b h
    unfold splitCategory
    rw [List.append_assoc,
      splitLastSep_append_of_some a (catSep ++ b) [] b (splitLastSep_sep_append b h)]
    simp

/-- Claim C9 witness: the general last-occurrence split applied at a
concrete artist and type. -/
theorem c9_category_split_witness :
    splitCategory ("Jo-Ann Lee".toList ++ catSep ++ "Glass".toList) =
      ("Jo-Ann Lee".toList, "Glass".toList) :=
  c9_category_split.2.2.2.2 ("Jo-Ann Lee".toList) ("Glass".toList) (by decide)

lemma defaultQty_pos (q : Option Nat) : 0 < defaultQty q := by
  match q with
  | none => exact Nat.one_pos
  | some 0 => exact Nat.one_pos
  | some (n + 1) => exact Nat.succ_pos n

lemma processRecord_create_ok (it : UploadItem) (env : RecordEnv) (ts : Nat)
    (hsq : it.squareId = none) (hok : env.itemWrite.ok = true) :
    (processRecord it env ts).2 = .ok
      { originalId := it.id
        squareId := env.itemWrite.objectId
        variationId := env.itemWrite.variationId
        sku := some ((env.itemWrite.variationSku).getD (mkSku it.artistName ts))
        category := some (it.artistName ++ catSep ++ it.type)
        quantity := some (defaultQty it.quantity)
        success := true
        action := some createdAction } := by
  unfold processRecord
  rw [hsq]
  simp [hok]

lemma processRecord_create_inv_effect (it : UploadItem) (env : RecordEnv)
    (ts : Nat) (v : Str) (hsq : it.squareId = none)
    (hok : env.itemWrite.ok = true) (hv : env.itemWrite.variationId = some v) :
    Effect.setInventory v (defaultQty it.quantity) ∈ (processRecord it env ts).1 := by
  unfold processRecord
  rw [hsq]
  simp only [hok, if_true, hv]
  refine List.mem_append_right _ ?_
  simp [defaultQty_pos it.quantity]

lemma processRecord_result (it : UploadItem) (env : RecordEnv) (ts : Nat)
    (h : it.squareId = none → env.itemWrite.ok = true) :
    ∃ r, (processRecord it env ts).2 = .ok r ∧ r.originalId = it.id ∧
      r.success = env.itemWrite.ok ∧
      (env.itemWrite.ok = false → r.error.isSome = true) := by
  match hsq : it.squareId with
  | none =>
    refine ⟨_, processRecord_create_ok it env ts hsq (h hsq), rfl, ?_, ?_⟩
    · exact (h hsq).symm
    · intro hf
      rw [h hsq] at hf
      exact absurd hf (by simp)
  | some sid =>
    by_cases hok : env.itemWrite.ok = true
    · refine ⟨{ originalId := it.id,
                squareId := some ((env.itemWrite.objectId).getD sid),
                sku := (env.itemWrite.variationSku).orElse (fun _ => it.sku),
                success := true,
                action := some updatedAction }, ?_, rfl, hok.symm, ?_⟩
      · unfold processRecord
        rw [hsq]
        simp [hok]
      · intro hf
        rw [hok] at hf
        exact absurd hf (by simp)
    · have hok2 : env.itemWrite.ok = false := by
        revert hok
        cases env.itemWrite.ok <;> simp
      refine ⟨{ originalId := it.id,
                squareId := some sid,
                success := false,
                error := some ((env.itemWrite.errorDetail).getD failedUpdateMsg) },
          ?_, rfl, hok2.symm, ?_⟩
      · unfold processRecord
        rw [hsq]
        simp [hok2]
      · intro _
        rfl

/-- Claim C1 counterexample: in a 2-record batch whose first record takes the
CREATE path and fails, the handler throws: the response is a single error
with no per-record results, so the remaining record is never processed and
no tagged failure entry is produced. -/
theorem c1_counterexample :
    c1BatchAbort.length = 2 ∧
    runBatch c1BatchAbort = .error ['s', 't', 'a', 'l', 'e'] := by
  constructor
  · rfl
  · rfl

/-- Claim C1 (amended): provided every CREATE-path record's item write
succeeds, the batch returns exactly one result per input record in input
order, each independently tagged with a success boolean; an UPDATE-path
failure yields a tagged failure entry with an error string and does not
abort the remaining records.  (A CREATE-path failure, by contrast, throws
and aborts the whole batch.) -/
theorem c1_batch_isolation_amended :
    ∀ batch : List (UploadItem × RecordEnv × Nat),
      (∀ e ∈ batch, (e.1).squareId = none → (e.2.1).itemWrite.ok = true) →
      ∃ rs, runBatch batch = .ok rs ∧ rs.length = batch.length ∧
        ∀ i it env ts r, batch.get? i = some (it, env, ts) →
          rs.get? i = some r →
          r.originalId = it.id ∧ r.success = env.itemWrite.ok ∧
          (env.itemWrite.ok = false → r.error.isSome = true) := by
  intro batch
  induction batch with
  | nil =>
    intro _
    refine ⟨[], rfl, rfl, ?_⟩
    intro i it env ts r h
    simp at h
  | cons e rest ih =>
    intro h
    obtain ⟨it, env, ts⟩ := e
    obtain ⟨r, hr, hro, hrs, hre⟩ :=
      processRecord_result it env ts (h _ (List.mem_cons_self _ _))
    obtain ⟨rs, hrs2, hlen, hidx⟩ :=
      ih (fun e he => h e (List.mem_cons_of_mem _ he))
    refine ⟨r :: rs, ?_, by simpa using hlen, ?_⟩
    · rw [runBatch, hr, hrs2]
      rfl
    · intro i it2 env2 ts2 r2 hb hr2
      match i with
      | 0 =>
        simp only [List.get?_cons_zero, Option.some.injEq] at hb hr2
        cases hb
        cases hr2
        exact ⟨hro, hrs, hre⟩
      | Nat.succ j =>
        simp only [List.get?_cons_succ] at hb hr2
        exact hidx j it2 env2 ts2 r2 hb hr2

/-- Claim C1 witness: the amended batch property applied to the concrete
3-record batch whose middle UPDATE fails with a stale token. -/
theorem c1_batch_isolation_amended_witness :
    ∃ rs, runBatch c1BatchMixed = .ok rs ∧ rs.length = c1BatchMixed.length ∧
      ∀ i it env ts r, c1BatchMixed.get? i = some (it, env, ts) →
        rs.get? i = some r →
        r.originalId = it.id ∧ r.success = env.itemWrite.ok ∧
        (env.itemWrite.ok = false → r.error.isSome = true) :=
  c1_batch_isolation_amended c1BatchMixed (by decide)

/-- Claim C8: on the CREATE path, when the item create succeeds and the
follow-up inventory physical-count call fails (`invOk = false`), the
inventory call is still issued, the record result reports `success = true`
with no error, and the whole outcome is independent of the inventory
response. -/
theorem c8_inventory_failure_swallowed :
    ∀ (it : UploadItem) (env : RecordEnv) (v : Str) (ts : Nat),
      it.squareId = none →
      env.itemWrite.ok = true →
      env.itemWrite.variationId = some v →
      env.invOk = false →
      Effect.setInventory v (defaultQty it.quantity) ∈ (processRecord it env ts).1 ∧
      (∃ r, (processRecord it env ts).2 = .ok r ∧ r.success = true ∧ r.error = none) ∧
      (∀ b, processRecord it { env with invOk := b } ts = processRecord it env ts) := by
  intro it env v ts hsq hok hv _
  exact ⟨processRecord_create_inv_effect it env ts v hsq hok hv,
    ⟨_, processRecord_create_ok it env ts hsq hok, rfl, rfl⟩,
    fun b => rfl⟩

/-- Claim C8 witness: applied at a concrete record whose inventory call
fails. -/
theorem c8_inventory_failure_swallowed_witness :
    Effect.setInventory ['V', '1']
        (defaultQty (mkSampleItem '5' none (some 2)).quantity) ∈
      (processRecord (mkSampleItem '5' none (some 2)) c8Env 0).1 ∧
    (∃ r, (processRecord (mkSampleItem '5' none (some 2)) c8Env 0).2 = .ok r ∧
      r.success = true ∧ r.error = none) ∧
    (∀ b, processRecord (mkSampleItem '5' none (some 2)) { c8Env with invOk := b } 0 =
      processRecord (mkSampleItem '5' none (some 2)) c8Env 0) :=
  c8_inventory_failure_swallowed (mkSampleItem '5' none (some 2)) c8Env
    ['V', '1'] 0 rfl rfl rfl rfl

/-- Claim C10: on the CREATE path a quantity of 0 (or a missing quantity) is
defaulted to 1, so a successful create issues an inventory physical count of
1 against the new variation and the result reports quantity 1. -/
theorem c10_create_quantity_defaults :
    ∀ (it : UploadItem) (env : RecordEnv) (v : Str) (ts : Nat),
      it.squareId = none →
      (it.quantity = none ∨ it.quantity = some 0) →
      env.itemWrite.ok = true →
      env.itemWrite.variationId = some v →
      Effect.setInventory v 1 ∈ (processRecord it env ts).1 ∧
      ∃ r, (processRecord it env ts).2 = .ok r ∧ r.quantity = some 1 := by
  intro it env v ts hsq hq hok hv
  have hdq : defaultQty it.quantity = 1 := by
    rcases hq with h | h <;> rw [h] <;> rfl
  constructor
  · have hm := processRecord_create_inv_effect it env ts v hsq hok hv
    rwa [hdq] at hm
  · exact ⟨_, processRecord_create_ok it env ts hsq hok, by
      show some (defaultQty it.quantity) = some 1
      rw [hdq]⟩

/-- Claim C10 witness: applied at a concrete record submitted with
quantity 0. -/
theorem c10_create_quantity_defaults_witness :
    Effect.setInventory ['V', '1'] 1 ∈
      (processRecord (mkSampleItem '6' none (some 0)) c1EnvOk 0).1 ∧
    ∃ r, (processRecord (mkSampleItem '6' none (some 0)) c1EnvOk 0).2 = .ok r ∧
      r.quantity = some 1 :=
  c10_create_quantity_defaults (mkSampleItem '6' none (some 0)) c1EnvOk
    ['V', '1'] 0 rfl (Or.inr rfl) rfl rfl

lemma reporting_cache_hit (env : CatEnv) (cache : List (Str × Str))
    (name cid : Str) (h : cache.lookup name = some cid) :
    getOrCreateReportingCategory env cache name = (some cid, cache, []) := by
  unfold getOrCreateReportingCategory
  simp [h]

lemma reporting_first_call_caches (env : CatEnv) (cache : List (Str × Str))
    (name cid : Str)
    (h : (getOrCreateReportingCategory env cache name).1 = some cid) :
    ((getOrCreateReportingCategory env cache name).2.1).lookup name = some cid := by
  unfold getOrCreateReportingCategory at h ⊢
  cases hc : cache.lookup name with
  | some c0 =>
    simp only [hc] at h
    obtain rfl : c0 = cid := Option.some.inj h
    simp only [hc]
  | none =>
    cases hs : env.searchId name with
    | some c0 =>
      simp only [hc, hs] at h
      obtain rfl : c0 = cid := Option.some.inj h
      simp only [hc, hs]
      simp [List.lookup]
    | none =>
      by_cases hok : (env.create name).ok = true
      · cases hn : (env.create name).newId with
        | some c0 =>
          simp only [hc, hs, hok, hn, if_true] at h
          obtain rfl : c0 = cid := Option.some.inj h
          simp only [hc, hs, hok, hn, if_true]
          simp [List.lookup]
        | none =>
          simp only [hc, hs, hok, hn, if_true] at h
          simp at h
      · simp only [hc, hs, if_neg hok] at h
        simp at h

lemma display_cache_hit (env : CatEnv) (cache : List (Str × Option Str))
    (name cid : Str) (h : cache.lookup name = some (some cid)) :
    resolveDisplayCategory env cache name = .ok (some cid, cache, []) := by
  unfold resolveDisplayCategory
  simp [h]

lemma display_first_call_caches (env : CatEnv) (cache : List (Str × Option Str))
    (name cid : Str) (st2 : List (Str × Option Str)) (effs : List CatEffect)
    (h : resolveDisplayCategory env cache name = .ok (some cid, st2, effs)) :
    st2.lookup name = some (some cid) := by
  unfold resolveDisplayCategory at h
  have hsearch : ∀ c0 : Str, env.searchId name = some c0 →
      (Except.ok (some c0, (name, some c0) :: cache, [CatEffect.search name]) :
        Except Str (Option Str × List (Str × Option Str) × List CatEffect)) =
        .ok (some cid, st2, effs) →
      st2.lookup name = some (some cid) := by
    intro c0 _ hh
    simp only [Except.ok.injEq, Prod.mk.injEq] at hh
    obtain ⟨h1, h2, _⟩ := hh
    obtain rfl : c0 = cid := Option.some.inj h1
    subst h2
    simp [List.lookup]
  have hcreate : (Except.ok ((env.create name).newId,
        (name, (env.create name).newId) :: cache,
        [CatEffect.search name, CatEffect.create name]) :
        Except Str (Option Str × List (Str × Option Str) × List CatEffect)) =
        .ok (some cid, st2, effs) →
      st2.lookup name = some (some cid) := by
    intro hh
    simp only [Except.ok.injEq, Prod.mk.injEq] at hh
    obtain ⟨h1, h2, _⟩ := hh
    subst h2
    simp [List.lookup]
    exact h1
  cases hc : cache.lookup name with
  | some o =>
    cases o with
    | some c0 =>
      simp only [hc] at h
      simp only [Except.ok.injEq, Prod.mk.injEq] at h
      obtain ⟨h1, h2, _⟩ := h
      obtain rfl : c0 = cid := Option.some.inj h1
      subst h2
      exact hc
    | none =>
      cases hs : env.searchId name with
      | some c0 =>
        simp only [hc, hs] at h
        exact hsearch c0 hs h
      | none =>
        by_cases hok : (env.create name).ok = true
        · simp only [hc, hs, hok, if_true] at h
          exact hcreate h
        · simp only [hc, hs, if_neg hok] at h
          simp at h
  | none =>
    cases hs : env.searchId name with
    | some c0 =>
      simp only [hc, hs] at h
      exact hsearch c0 hs h
    | none =>
      by_cases hok : (env.create name).ok = true
      · simp only [hc, hs, hok, if_true] at h
        exact hcreate h
      · simp only [hc, hs, if_neg hok] at h
        simp at h

/-- Claim C5: for every category name, a second resolution within the same
batch returns the same provider id as the first call with no outbound
request at all (batch-local cache hit), in both the reporting-category
namespace (`getOrCreateReportingCategory`) and the display
`Artist - Type` namespace (`categoryCache`), whenever the first call
resolved an id. -/
theorem c5_category_cache_hit :
    (∀ (env : CatEnv) (cache : List (Str × Str)) (name cid : Str),
      (getOrCreateReportingCategory env cache name).1 = some cid →
      getOrCreateReportingCategory env
          ((getOrCreateReportingCategory env cache name).2.1) name =
        (some cid, (getOrCreateReportingCategory env cache name).2.1, [])) ∧
    (∀ (env : CatEnv) (cache : List (Str × Option Str)) (name cid : Str)
      (st2 : List (Str × Option Str)) (effs : List CatEffect),
      resolveDisplayCategory env cache name = .ok (some cid, st2, effs) →
      resolveDisplayCategory env st2 name = .ok (some cid, st2, [])) := by
  constructor
  · intro env cache name cid h
    exact reporting_cache_hit env _ name cid
      (reporting_first_call_caches env cache name cid h)
  · intro env cache name cid st2 effs h
    exact display_cache_hit env st2 name cid
      (display_first_call_caches env cache name cid st2 effs h)

/-- Claim C5 witness: both resolvers applied after a concrete first call
that created the category. -/
theorem c5_category_cache_hit_witness :
    getOrCreateReportingCategory c5Env
        ((getOrCreateReportingCategory c5Env [] ['J', 'o']).2.1) ['J', 'o'] =
      (some ['#', 'J', 'o'],
        (getOrCreateReportingCategory c5Env [] ['J', 'o']).2.1, []) ∧
    resolveDisplayCategory c5Env [(['A'], some ['#', 'A'])] ['A'] =
      .ok (some ['#', 'A'], [(['A'], some ['#', 'A'])], []) :=
  ⟨c5_category_cache_hit.1 c5Env [] ['J', 'o'] ['#', 'J', 'o'] rfl,
   c5_category_cache_hit.2 c5Env [] ['A'] ['#', 'A'] [(['A'], some ['#', 'A'])]
     [CatEffect.search ['A'], CatEffect.create ['A']] rfl⟩

/-- Claim C3: archiving a live item removes it from the listed inventory and
appends it to the archive with `archivedAt` set; restoring drops the
provider identifiers so the upload takes the CREATE path, receives a fresh
provider id (never the archived one), and on success the record is removed
from the archive list. -/
theorem c3_archive_restore_roundtrip :
    (∀ (member tsA : Str) (st : ProviderState) (archive : List ArchivedRecord)
      (item : PortalItem),
      providerWF st → item.squareId ∈ st.catalog →
      (handleArchive member tsA st archive item).2.2 = true ∧
      item.squareId ∉ listedIds (handleArchive member tsA st archive item).1 ∧
      (handleArchive member tsA st archive item).2.1 =
        archive ++ [⟨item.squareId, item.variationId, item.title, tsA, member⟩]) ∧
    (∀ (st : ProviderState) (archive : List ArchivedRecord)
      (a : ArchivedRecord) (ts : Nat),
      a.squareId < st.nextId →
      (restoreItemOf a ts).squareId = none ∧
      ∃ newId, (handleRestore true st archive a ts).2.2 = .created newId ∧
        newId ≠ a.squareId ∧
        newId ∈ listedIds (handleRestore true st archive a ts).1 ∧
        ∀ x ∈ (handleRestore true st archive a ts).2.1,
          x.squareId ≠ a.squareId) := by
  constructor
  · intro member tsA st archive item hWF hmem
    refine ⟨?_, ?_, ?_⟩
    · simp [handleArchive, deleteItem, hmem]
    · simp only [handleArchive, deleteItem, hmem, if_true, listedIds]
      intro hin
      exact ((hWF.1.mem_erase_iff).mp hin).1 rfl
    · simp [handleArchive, deleteItem, hmem]
  · intro st archive a ts hlt
    refine ⟨rfl, st.nextId, ?_, ?_, ?_, ?_⟩
    · simp [handleRestore, uploadToProvider, restoreItemOf, createItem]
    · omega
    · simp [handleRestore, uploadToProvider, restoreItemOf, createItem, listedIds]
    · intro x hx
      simp only [handleRestore, uploadToProvider, restoreItemOf, createItem] at hx
      have hx2 := List.of_mem_filter hx
      simpa using hx2

/-- Claim C3 witness: archive then restore at a concrete provider state. -/
theorem c3_archive_restore_roundtrip_witness :
    ((handleArchive ['m'] ['t'] ⟨5, [3, 1]⟩ [] ⟨3, none, ['T']⟩).2.2 = true ∧
      3 ∉ listedIds (handleArchive ['m'] ['t'] ⟨5, [3, 1]⟩ [] ⟨3, none, ['T']⟩).1 ∧
      (handleArchive ['m'] ['t'] ⟨5, [3, 1]⟩ [] ⟨3, none, ['T']⟩).2.1 =
        [] ++ [⟨3, none, ['T'], ['t'], ['m']⟩]) ∧
    ((restoreItemOf ⟨3, none, ['T'], ['t'], ['m']⟩ 9).squareId = none ∧
      ∃ newId,
        (handleRestore true ⟨5, [1]⟩ [⟨3, none, ['T'], ['t'], ['m']⟩]
            ⟨3, none, ['T'], ['t'], ['m']⟩ 9).2.2 = .created newId ∧
        newId ≠ 3 ∧
        newId ∈ listedIds (handleRestore true ⟨5, [1]⟩
            [⟨3, none, ['T'], ['t'], ['m']⟩] ⟨3, none, ['T'], ['t'], ['m']⟩ 9).1 ∧
        ∀ x ∈ (handleRestore true ⟨5, [1]⟩ [⟨3, none, ['T'], ['t'], ['m']⟩]
            ⟨3, none, ['T'], ['t'], ['m']⟩ 9).2.1, x.squareId ≠ 3) :=
  ⟨c3_archive_restore_roundtrip.1 ['m'] ['t'] ⟨5, [3, 1]⟩ [] ⟨3, none, ['T']⟩
      (by constructor <;> decide) (by decide),
   c3_archive_restore_roundtrip.2 ⟨5, [1]⟩ [⟨3, none, ['T'], ['t'], ['m']⟩]
      ⟨3, none, ['T'], ['t'], ['m']⟩ 9 (by decide)⟩

lemma chunk100Fuel_flatten :
    ∀ (n : Nat) (ids : List Str), ids.length ≤ n →
      (chunk100Fuel n ids).flatten = ids := by
  intro n
  induction n with
  | zero =>
    intro ids h
    match ids with
    | [] => rfl
  | succ n ih =>
    intro ids h
    match ids with
    | [] => rfl
    | x :: xs =>
      rw [chunk100Fuel, List.flatten_cons, ih ((x :: xs).drop 100)
        (by simp [List.length_drop] at h ⊢; omega)]
      exact List.take_append_drop 100 (x :: xs)

lemma chunk100_flatten (ids : List Str) : (chunk100 ids).flatten = ids :=
  chunk100Fuel_flatten ids.length ids le_rfl

lemma chunk100Fuel_sizes :
    ∀ (n : Nat) (ids : List Str), ∀ b ∈ chunk100Fuel n ids, b.length ≤ 100 := by
  intro n
  induction n with
  | zero =>
    intro ids b hb
    match ids with
    | [] => simp [chunk100Fuel] at hb
    | _ :: _ => simp [chunk100Fuel] at hb
  | succ n ih =>
    intro ids b hb
    match ids with
    | [] => simp [chunk100Fuel] at hb
    | x :: xs =>
      rw [chunk100Fuel] at hb
      rcases List.mem_cons.mp hb with h | h
      · subst h
        exact List.length_take_le 100 _
      · exact ih ((x :: xs).drop 100) b h

lemma chunk100_sizes (ids : List Str) : ∀ b ∈ chunk100 ids, b.length ≤ 100 :=
  chunk100Fuel_sizes ids.length ids

lemma inner_fold_lookup (cs : List SqCount) :
    ∀ (init : List (Str × Int)) (v : Str) (q : Int),
      ((cs.foldl (fun m2 c =>
          if c.state = inStockState then
            (c.catalogObjectId, (c.quantity).getD 0) :: m2
          else m2) init).lookup v = some q) →
      init.lookup v = some q ∨
        ∃ c ∈ cs, c.catalogObjectId = v ∧ c.state = inStockState ∧
          q = (c.quantity).getD 0 := by
  induction cs with
  | nil =>
    intro init v q h
    exact Or.inl h
  | cons c cs ih =>
    intro init v q h
    rw [List.foldl_cons] at h
    rcases ih _ v q h with h2 | h2
    · by_cases hst : c.state = inStockState
      · rw [if_pos hst] at h2
        by_cases hv : v = c.catalogObjectId
        · refine Or.inr ⟨c, List.mem_cons_self c cs, hv.symm, hst, ?_⟩
          have : (List.lookup v ((c.catalogObjectId, (c.quantity).getD 0) :: init))
              = some ((c.quantity).getD 0) := by
            simp [List.lookup, hv]
          rw [this] at h2
          exact (Option.some.inj h2).symm
        · refine Or.inl ?_
          have hbeq : (v == c.catalogObjectId) = false := by
            simp [hv]
          have : (List.lookup v ((c.catalogObjectId, (c.quantity).getD 0) :: init))
              = List.lookup v init := by
            simp [List.lookup, hbeq]
          rwa [this] at h2
      · rw [if_neg hst] at h2
        exact Or.inl h2
    · obtain ⟨c2, hc2, hrest⟩ := h2
      exact Or.inr ⟨c2, List.mem_cons_of_mem c hc2, hrest⟩

lemma outer_fold_lookup (resp : List Str → List SqCount) :
    ∀ (bs : List (List Str)) (init : List (Str × Int)) (v : Str) (q : Int),
      ((bs.foldl (fun m batch =>
          (resp batch).foldl (fun m2 c =>
            if c.state = inStockState then
              (c.catalogObjectId, (c.quantity).getD 0) :: m2
            else m2) m) init).lookup v = some q) →
      init.lookup v = some q ∨
        ∃ b ∈ bs, ∃ c ∈ resp b, c.catalogObjectId = v ∧
          c.state = inStockState ∧ q = (c.quantity).getD 0 := by
  intro bs
  induction bs with
  | nil =>
    intro init v q h
    exact Or.inl h
  | cons b bs ih =>
    intro init v q h
    rw [List.foldl_cons] at h
    rcases ih _ v q h with h2 | h2
    · rcases inner_fold_lookup (resp b) init v q h2 with h3 | h3
      · exact Or.inl h3
      · obtain ⟨c, hc, hrest⟩ := h3
        exact Or.inr ⟨b, List.mem_cons_self b bs, c, hc, hrest⟩
    · obtain ⟨b2, hb2, rest⟩ := h2
      exact Or.inr ⟨b2, List.mem_cons_of_mem b hb2, rest⟩

/-- Claim C4 counterexample: for an item with two variations only the FIRST
variation id is collected — `V2` is a variation id present across the
listed items yet absent from the collected ids, so the retrieval does not
collect every variation id. -/
theorem c4_counterexample :
    (∃ w ∈ c4TwoVarItem.variations, w.id = some ['V', '2']) ∧
    ['V', '2'] ∉ collectVariationIds [c4TwoVarItem] := by
  constructor
  · exact ⟨⟨some ['V', '2']⟩, by decide, rfl⟩
  · decide

/-- Claim C4 (amended): the retrieval collects the FIRST variation id of
every listed item (not every variation id), splits them into request
batches of at most 100 ids, keeps only returned counts whose state is
`IN_STOCK` (indexed by variation id), and reports quantity 0 for any
variation with no retained count entry. -/
theorem c4_inventory_counts_amended :
    (∀ (items : List SqItem) (it : SqItem) (v : Str), it ∈ items →
      firstVariationId it = some v → v ≠ [] → v ∈ collectVariationIds items) ∧
    (∀ ids : List Str, (chunk100 ids).flatten = ids ∧
      ∀ b ∈ chunk100 ids, b.length ≤ 100) ∧
    (∀ (resp : List Str → List SqCount) (ids : List Str) (v : Str) (q : Int),
      (buildInventoryCounts resp ids).lookup v = some q →
      ∃ b ∈ chunk100 ids, ∃ c ∈ resp b, c.catalogObjectId = v ∧
        c.state = inStockState ∧ q = (c.quantity).getD 0) ∧
    (∀ (counts : List (Str × Int)) (v : Str),
      counts.lookup v = none → quantityFor counts (some v) = 0) ∧
    (∀ counts : List (Str × Int), quantityFor counts none = 0) := by
  refine ⟨?_, ?_, ?_, ?_, ?_⟩
  · intro items it v hmem hfv hne
    unfold collectVariationIds
    refine List.mem_filter.mpr ⟨?_, by simp [hne]⟩
    refine List.mem_map.mpr ⟨it, hmem, ?_⟩
    rw [hfv]
    rfl
  · intro ids
    exact ⟨chunk100_flatten ids, chunk100_sizes ids⟩
  · intro resp ids v q h
    unfold buildInventoryCounts at h
    rcases outer_fold_lookup resp (chunk100 ids) [] v q h with h2 | h2
    · simp [List.lookup] at h2
    · exact h2
  · intro counts v h
    unfold quantityFor
    by_cases hv : v = []
    · simp [hv]
    · simp [hv, h]
  · intro counts
    rfl

/-- Claim C4 witness: the amended properties applied at a concrete catalog
(an item whose first variation is `V1`) and a concrete counts table. -/
theorem c4_inventory_counts_amended_witness :
    ['V', '1'] ∈ collectVariationIds [c4TwoVarItem] ∧
    (∃ b ∈ chunk100 [['V', '1']], ∃ c ∈ c4Resp b,
      c.catalogObjectId = ['V', '1'] ∧ c.state = inStockState ∧
      (7 : Int) = (c.quantity).getD 0) ∧
    quantityFor (buildInventoryCounts c4Resp [['V', '1']]) (some ['V', '2']) = 0 :=
  ⟨c4_inventory_counts_amended.1 [c4TwoVarItem] c4TwoVarItem ['V', '1']
      (by decide) rfl (by decide),
   c4_inventory_counts_amended.2.2.1 c4Resp [['V', '1']] ['V', '1'] 7 (by decide),
   c4_inventory_counts_amended.2.2.2.1 (buildInventoryCounts c4Resp [['V', '1']])
      ['V', '2'] (by decide)⟩

lemma isPrefixCI_append_right (p : Str) :
    ∀ t u : Str, isPrefixCI p t = true → isPrefixCI p (t ++ u) = true := by
  induction p with
  | nil =>
    intro t u _
    rfl
  | cons a p ih =>
    intro t u h
    match t with
    | [] => exact absurd h (by simp [isPrefixCI])
    | b :: t2 =>
      simp only [isPrefixCI, Bool.and_eq_true] at h
      show isPrefixCI (a :: p) (b :: (t2 ++ u)) = true
      simp only [isPrefixCI, Bool.and_eq_true]
      exact ⟨h.1, ih t2 u h.2⟩

lemma mismatchWithin_sound (p : Str) :
    ∀ t u : Str, mismatchWithin p t = true → isPrefixCI p (t ++ u) = false := by
  induction p with
  | nil =>
    intro t u h
    simp [mismatchWithin] at h
  | cons a p ih =>
    intro t u h
    match t with
    | [] => simp [mismatchWithin] at h
    | b :: t2 =>
      rw [mismatchWithin] at h
      by_cases hab : lcChar a = lcChar b
      · rw [if_pos hab] at h
        show isPrefixCI (a :: p) (b :: (t2 ++ u)) = false
        simp only [isPrefixCI]
        rw [ih t2 u h]
        simp
      · show isPrefixCI (a :: p) (b :: (t2 ++ u)) = false
        simp only [isPrefixCI]
        simp [hab]

lemma splitFirstCI_cons_pos (p : Str) (c : Char) (s : Str)
    (h : isPrefixCI p (c :: s) = true) :
    splitFirstCI p (c :: s) = some ([], c :: s) := by
  rw [splitFirstCI, if_pos h]

lemma splitFirstCI_cons_neg (p : Str) (c : Char) (s : Str)
    (h : isPrefixCI p (c :: s) = false) :
    splitFirstCI p (c :: s) =
      (splitFirstCI p s).map (fun ab => (c :: ab.1, ab.2)) := by
  rw [splitFirstCI, if_neg (by simp [h])]

lemma blocksPrefix_sound (p : Str) :
    ∀ A M : Str, blocksPrefix p A = true → splitFirstCI p M = none →
      splitFirstCI p (A ++ M) = none := by
  intro A
  induction A with
  | nil =>
    intro M _ hM
    simpa using hM
  | cons c A2 ih =>
    intro M hA hM
    rw [blocksPrefix, Bool.and_eq_true] at hA
    have h1 : isPrefixCI p ((c :: A2) ++ M) = false :=
      mismatchWithin_sound p (c :: A2) M hA.1
    show splitFirstCI p (c :: (A2 ++ M)) = none
    rw [splitFirstCI_cons_neg p c (A2 ++ M) h1, ih M hA.2 hM]
    rfl

lemma splitFirstCI_none_tail (p : Str) (c : Char) (s : Str)
    (h : splitFirstCI p (c :: s) = none) : splitFirstCI p s = none := by
  by_cases hp : isPrefixCI p (c :: s) = true
  · rw [splitFirstCI_cons_pos p c s hp] at h
    exact absurd h (by simp)
  · rw [splitFirstCI_cons_neg p c s (by revert hp; cases isPrefixCI p (c :: s) <;> simp)] at h
    cases hs : splitFirstCI p s with
    | none => rfl
    | some ab =>
      rw [hs] at h
      exact absurd h (by simp)

lemma splitFirstCI_none_drops (p : Str) :
    ∀ s : Str, splitFirstCI p s = none → ∀ n, isPrefixCI p (s.drop n) = false := by
  intro s
  induction s with
  | nil =>
    intro h n
    rw [splitFirstCI] at h
    simp only [List.drop_nil]
    by_cases hp : isPrefixCI p [] = true
    · rw [if_pos hp] at h
      exact absurd h (by simp)
    · revert hp
      cases isPrefixCI p [] <;> simp
  | cons c s ih =>
    intro h n
    match n with
    | 0 =>
      simp only [List.drop_zero]
      by_cases hp : isPrefixCI p (c :: s) = true
      · rw [splitFirstCI_cons_pos p c s hp] at h
        exact absurd h (by simp)
      · revert hp
        cases isPrefixCI p (c :: s) <;> simp
    | m + 1 =>
      exact ih (splitFirstCI_none_tail p c s h) m

lemma lcChar_nl : lcChar '\n' = '\n' := by decide

lemma isPrefixCI_nl_head (p : Str) (hp : p ≠ [])
    (hnl : p.all (fun a => lcChar a != '\n') = true) (r : Str) :
    isPrefixCI p ('\n' :: r) = false := by
  match p, hp with
  | a :: p2, _ =>
    have ha : (lcChar a != '\n') = true := by
      rw [List.all_eq_true] at hnl
      exact hnl a (List.mem_cons_self a p2)
    simp only [isPrefixCI, lcChar_nl]
    have : lcChar a ≠ '\n' := by simpa using ha
    simp [this]

lemma isPrefixCI_nl_boundary (p : Str) :
    p ≠ [] → (p.all fun a => lcChar a != '\n') = true →
    ∀ t r : Str, isPrefixCI p t = false → isPrefixCI p (t ++ '\n' :: r) = false := by
  induction p with
  | nil =>
    intro hp
    exact absurd rfl hp
  | cons a p2 ih =>
    intro _ hnl t r h
    match t with
    | [] => exact isPrefixCI_nl_head (a :: p2) (by simp) hnl r
    | b :: t2 =>
      show isPrefixCI (a :: p2) (b :: (t2 ++ '\n' :: r)) = false
      by_cases hab : lcChar a = lcChar b
      · have h2 : isPrefixCI p2 t2 = false := by
          have h3 := h
          simp only [isPrefixCI, hab] at h3
          simpa using h3
        have hall : (p2.all fun a => lcChar a != '\n') = true := by
          rw [List.all_eq_true] at hnl ⊢
          intro x hx
          exact hnl x (List.mem_cons_of_mem a hx)
        have hres : isPrefixCI p2 (t2 ++ '\n' :: r) = false := by
          cases p2 with
          | nil => exact absurd h2 (by simp [isPrefixCI])
          | cons q p3 => exact ih (by simp) hall t2 r h2
        simp [isPrefixCI, hab, hres]
      · simp [isPrefixCI, hab]

lemma blocksAll_append (p a a2 : Str) (h1 : BlocksAll p a)
    (h2 : BlocksAll p a2) : BlocksAll p (a ++ a2) := by
  intro i hi b
  rcases lt_or_ge i a.length with hlt | hge
  · rw [List.drop_append_of_le_length (le_of_lt hlt), List.append_assoc]
    exact h1 i hlt (a2 ++ b)
  · have heq : i = a.length + (i - a.length) := by omega
    rw [heq, List.drop_append]
    apply h2
    rw [List.length_append] at hi
    omega

lemma blocksAll_of_none (p D : Str) (hp : p ≠ [])
    (hnl : (p.all fun a => lcChar a != '\n') = true)
    (hD : splitFirstCI p D = none) : BlocksAll p (D ++ ['\n']) := by
  intro i hi b
  rcases lt_or_ge i D.length with hlt | hge
  · rw [List.drop_append_of_le_length (le_of_lt hlt), List.append_assoc]
    exact isPrefixCI_nl_boundary p hp hnl (D.drop i) b
      (splitFirstCI_none_drops p D hD i)
  · have hieq : i = D.length := by
      rw [List.length_append] at hi
      simp at hi
      omega
    subst hieq
    rw [List.drop_left]
    exact isPrefixCI_nl_head p hp hnl b

lemma blocksAll_nl (p : Str) (hp : p ≠ [])
    (hnl : (p.all fun a => lcChar a != '\n') = true) : BlocksAll p ['\n'] := by
  intro i hi b
  have hieq : i = 0 := by simp at hi; omega
  subst hieq
  exact isPrefixCI_nl_head p hp hnl b

lemma splitFirstCI_peel (p : Str) :
    ∀ a b : Str, BlocksAll p a →
      splitFirstCI p (a ++ b) =
        (splitFirstCI p b).map (fun ab => (a ++ ab.1, ab.2)) := by
  intro a
  induction a with
  | nil =>
    intro b _
    cases h : splitFirstCI p b <;> simp [h]
  | cons c a2 ih =>
    intro b hB
    have h0 : isPrefixCI p (c :: (a2 ++ b)) = false := by
      have h3 := hB 0 (by simp) b
      simpa using h3
    show splitFirstCI p (c :: (a2 ++ b)) = _
    rw [splitFirstCI_cons_neg p c (a2 ++ b) h0]
    have hB2 : BlocksAll p a2 := by
      intro i hi b2
      have h4 := hB (i + 1) (by simp; omega) b2
      simpa using h4
    rw [ih b hB2]
    cases h : splitFirstCI p b <;> simp

lemma splitFirstCI_none_append (p a b : Str) (hB : BlocksAll p a)
    (hb : splitFirstCI p b = none) : splitFirstCI p (a ++ b) = none := by
  rw [splitFirstCI_peel p a b hB, hb]
  rfl

lemma dtw_eq_self (s : Str)
    (h : ∀ c, s.getLast? = some c → isJsSpace c = false) :
    dropTrailingWS s = s := by
  induction s with
  | nil => rfl
  | cons c s2 ih =>
    cases s2 with
    | nil =>
      have hc := h c rfl
      rw [dropTrailingWS]
      simp [dropTrailingWS, hc]
    | cons d r =>
      have h2 : ∀ x, (d :: r).getLast? = some x → isJsSpace x = false := by
        intro x hx
        apply h
        rwa [List.getLast?_cons_cons]
      rw [dropTrailingWS, ih h2]

lemma dtw_append_ws (t : Str) (ht : dropTrailingWS t = []) :
    ∀ s : Str, dropTrailingWS (s ++ t) = dropTrailingWS s := by
  intro s
  induction s with
  | nil => simpa using ht
  | cons c s2 ih =>
    show dropTrailingWS (c :: (s2 ++ t)) = _
    rw [dropTrailingWS, ih, dropTrailingWS]

lemma dropWhile_head_false (p : Char → Bool) :
    ∀ (l : List Char) (c : Char) (r : List Char),
      l.dropWhile p = c :: r → p c = false := by
  intro l
  induction l with
  | nil =>
    intro c r h
    simp at h
  | cons a l2 ih =>
    intro c r h
    rw [List.dropWhile_cons] at h
    by_cases ha : p a = true
    · rw [if_pos ha] at h
      exact ih c r h
    · rw [if_neg ha] at h
      injection h with h1 _
      rw [← h1]
      revert ha
      cases p a <;> simp

lemma splitFirstCI_none_dropWhile (p : Str) (q : Char → Bool) :
    ∀ s : Str, splitFirstCI p s = none →
      splitFirstCI p (s.dropWhile q) = none := by
  intro s
  induction s with
  | nil =>
    intro h
    simpa using h
  | cons c s2 ih =>
    intro h
    rw [List.dropWhile_cons]
    by_cases hc : q c = true
    · rw [if_pos hc]
      exact ih (splitFirstCI_none_tail p c s2 h)
    · rw [if_neg hc]
      exact h

lemma getLast?_append_ne (a : Str) :
    ∀ b : Str, b ≠ [] → (a ++ b).getLast? = b.getLast? := by
  induction a with
  | nil =>
    intro b _
    rfl
  | cons c a2 ih =>
    intro b hb
    rw [List.cons_append]
    cases hab : a2 ++ b with
    | nil => exact absurd (List.append_eq_nil.mp hab).2 hb
    | cons x xs =>
      have ih2 := ih b hb
      rw [hab] at ih2
      rw [List.getLast?_cons_cons]
      exact ih2

lemma trimJS_frontD (desc : Str) : trimJS (frontD desc) = trimJS desc := by
  unfold trimJS frontD
  cases h : desc.dropWhile isJsSpace with
  | nil => simp [dropTrailingWS]
  | cons d r =>
    have hd : isJsSpace d = false := dropWhile_head_false isJsSpace desc d r h
    show dropTrailingWS (List.dropWhile isJsSpace ((d :: r) ++ ['\n', '\n'])) =
      dropTrailingWS (d :: r)
    rw [List.cons_append, List.dropWhile_cons, if_neg (by simp [hd])]
    have h2 := dtw_append_ws ['\n', '\n'] rfl (d :: r)
    simpa using h2

lemma frontD_blocksAll (p desc : Str) (hp : p ≠ [])
    (hnl : (p.all fun a => lcChar a != '\n') = true)
    (hdesc : splitFirstCI p desc = none) : BlocksAll p (frontD desc) := by
  unfold frontD
  cases h : desc.dropWhile isJsSpace with
  | nil =>
    intro i hi b
    simp at hi
  | cons d r =>
    have hno : splitFirstCI p (d :: r) = none := by
      rw [← h]
      exact splitFirstCI_none_dropWhile p isJsSpace desc hdesc
    have h1 : BlocksAll p ((d :: r) ++ ['\n']) :=
      blocksAll_of_none p (d :: r) hp hnl hno
    have h2 : BlocksAll p ['\n'] := blocksAll_nl p hp hnl
    have h3 := blocksAll_append p _ _ h1 h2
    simpa [List.append_assoc] using h3

lemma trim_encode_form (desc B : Str) (hBne : B ≠ [])
    (hBhead : ∀ c, B.head? = some c → isJsSpace c = false)
    (hBlast : ∀ c, B.getLast? = some c → isJsSpace c = false) :
    trimJS (desc ++ '\n' :: '\n' :: B) = frontD desc ++ B := by
  unfold trimJS frontD
  rw [List.dropWhile_append]
  cases h : desc.dropWhile isJsSpace with
  | nil =>
    simp only [List.isEmpty_nil, if_true]
    rw [List.dropWhile_cons, if_pos (by decide), List.dropWhile_cons,
      if_pos (by decide)]
    cases B with
    | nil => exact absurd rfl hBne
    | cons c B2 =>
      rw [List.dropWhile_cons, if_neg (by simp [hBhead c rfl])]
      show dropTrailingWS (c :: B2) = [] ++ (c :: B2)
      rw [dtw_eq_self (c :: B2) hBlast]
      rfl
  | cons d r =>
    simp only [List.isEmpty_cons, if_false]
    show dropTrailingWS ((d :: r) ++ '\n' :: '\n' :: B) =
      ((d :: r) ++ ['\n', '\n']) ++ B
    have hform : ((d :: r) ++ '\n' :: '\n' :: B).getLast? = B.getLast? := by
      rw [getLast?_append_ne (d :: r) _ (by simp)]
      show (['\n', '\n'] ++ B).getLast? = B.getLast?
      exact getLast?_append_ne ['\n', '\n'] B hBne
    rw [dtw_eq_self _ (fun c hc => hBlast c (by rwa [hform] at hc))]
    simp [List.append_assoc]

lemma splitFirstCI_at_line (L s : Str) (hm : isPrefixCI L s = true)
    (hs : s ≠ []) : splitFirstCI L s = some ([], s) := by
  match s, hs with
  | c :: s2, _ => exact splitFirstCI_cons_pos L c s2 hm

lemma line_after_label (L A V tail : Str) (hdrop : A.drop L.length = [' '])
    (hlen : L.length ≤ A.length) (hVne : V ≠ [])
    (hVhead : ∀ c, V.head? = some c → isJsSpace c = false) :
    ((A ++ (V ++ tail)).drop L.length).dropWhile wsNotNL = V ++ tail := by
  rw [List.drop_append_of_le_length hlen, hdrop]
  show List.dropWhile wsNotNL (' ' :: (V ++ tail)) = V ++ tail
  rw [List.dropWhile_cons, if_pos (by decide)]
  match V, hVne with
  | v :: V2, _ =>
    rw [List.cons_append, List.dropWhile_cons,
      if_neg (by simp [wsNotNL, hVhead v rfl])]

lemma takeWhile_to_nl (V : Str) (hnl : ∀ c ∈ V, c ≠ '\n') (r : Str) :
    (V ++ '\n' :: r).takeWhile (· ≠ '\n') = V ∧
      (V ++ '\n' :: r).dropWhile (· ≠ '\n') = '\n' :: r := by
  induction V with
  | nil =>
    constructor
    · rw [List.nil_append, List.takeWhile_cons]
      simp
    · rw [List.nil_append, List.dropWhile_cons]
      simp
  | cons v V2 ih =>
    have hv : v ≠ '\n' := hnl v (List.mem_cons_self v V2)
    have ih2 := ih (fun c hc => hnl c (List.mem_cons_of_mem v hc))
    constructor
    · rw [List.cons_append, List.takeWhile_cons, if_pos (by simp [hv]), ih2.1]
    · rw [List.cons_append, List.dropWhile_cons, if_pos (by simp [hv]), ih2.2]

lemma takeWhile_no_nl (V : Str) (hnl : ∀ c ∈ V, c ≠ '\n') :
    V.takeWhile (· ≠ '\n') = V ∧ V.dropWhile (· ≠ '\n') = [] := by
  induction V with
  | nil => exact ⟨rfl, rfl⟩
  | cons v V2 ih =>
    have hv : v ≠ '\n' := hnl v (List.mem_cons_self v V2)
    have ih2 := ih (fun c hc => hnl c (List.mem_cons_of_mem v hc))
    constructor
    · rw [List.takeWhile_cons, if_pos (by simp [hv]), ih2.1]
    · rw [List.dropWhile_cons, if_pos (by simp [hv]), ih2.2]

lemma fv_labelFree (v : Str) (h : fieldValueOk v = true) : labelFree v = true := by
  unfold fieldValueOk at h
  simp only [Bool.and_eq_true] at h
  exact h.1.1.1

lemma fv_no_nl (v : Str) (h : fieldValueOk v = true) : ∀ c ∈ v, c ≠ '\n' := by
  unfold fieldValueOk at h
  simp only [Bool.and_eq_true] at h
  intro c hc hceq
  subst hceq
  have h2 := h.1.1.2
  simp only [Bool.not_eq_true'] at h2
  have h3 : List.contains v '\n' = true := List.elem_iff.mpr hc
  rw [h3] at h2
  exact absurd h2 (by simp)

lemma fv_head (v : Str) (h : fieldValueOk v = true) :
    ∀ c, v.head? = some c → isJsSpace c = false := by
  unfold fieldValueOk at h
  simp only [Bool.and_eq_true] at h
  intro c hc
  have h2 := h.1.2
  rw [hc] at h2
  simpa using h2

lemma fv_last (v : Str) (h : fieldValueOk v = true) :
    ∀ c, v.getLast? = some c → isJsSpace c = false := by
  unfold fieldValueOk at h
  simp only [Bool.and_eq_true] at h
  intro c hc
  have h2 := h.2
  rw [hc] at h2
  simpa using h2

lemma fv_splitMed (v : Str) (h : fieldValueOk v = true) :
    splitFirstCI medLabel v = none := by
  have h2 := fv_labelFree v h
  unfold labelFree at h2
  simp only [Bool.and_eq_true, Option.isNone_iff_eq_none] at h2
  exact h2.1.1

lemma fv_splitDim (v : Str) (h : fieldValueOk v = true) :
    splitFirstCI dimLabel v = none := by
  have h2 := fv_labelFree v h
  unfold labelFree at h2
  simp only [Bool.and_eq_true, Option.isNone_iff_eq_none] at h2
  exact h2.1.2

lemma fv_splitDis (v : Str) (h : fieldValueOk v = true) :
    splitFirstCI disLabel v = none := by
  have h2 := fv_labelFree v h
  unfold labelFree at h2
  simp only [Bool.and_eq_true, Option.isNone_iff_eq_none] at h2
  exact h2.2

lemma fv_trim (v : Str) (h : fieldValueOk v = true) : trimJS v = v := by
  unfold trimJS
  cases v with
  | nil => rfl
  | cons c v2 =>
    rw [List.dropWhile_cons, if_neg (by simp [fv_head _ h c rfl])]
    exact dtw_eq_self (c :: v2) (fv_last _ h)

lemma decode_step_found (L A V pre tail E : Str)
    (hsplit : splitFirstCI L E = some (pre, A ++ (V ++ tail)))
    (hdrop : A.drop L.length = [' ']) (hlen : L.length ≤ A.length)
    (hVne : V ≠ []) (hVhead : ∀ c, V.head? = some c → isJsSpace c = false)
    (hVnl : ∀ c ∈ V, c ≠ '\n')
    (htail : tail = [] ∨ ∃ r, tail = '\n' :: r) :
    extractLabel L E = some V ∧ removeLabelLine L E = pre ++ tail.drop 1 := by
  have hline := line_after_label L A V tail hdrop hlen hVne hVhead
  have hval : (((A ++ (V ++ tail)).drop L.length).dropWhile wsNotNL).takeWhile
      (· ≠ '\n') = V := by
    rw [hline]
    rcases htail with h | ⟨r, h⟩
    · subst h
      simpa using (takeWhile_no_nl V hVnl).1
    · subst h
      exact (takeWhile_to_nl V hVnl r).1
  have hrem : (((A ++ (V ++ tail)).drop L.length).dropWhile wsNotNL).dropWhile
      (· ≠ '\n') = tail := by
    rw [hline]
    rcases htail with h | ⟨r, h⟩
    · subst h
      simpa using (takeWhile_no_nl V hVnl).2
    · subst h
      exact (takeWhile_to_nl V hVnl r).2
  constructor
  · unfold extractLabel
    rw [hsplit]
    show some ((((A ++ (V ++ tail)).drop L.length).dropWhile wsNotNL).takeWhile
      (· ≠ '\n')) = some V
    exact congrArg some hval
  · unfold removeLabelLine
    rw [hsplit]
    show pre ++ ((((A ++ (V ++ tail)).drop L.length).dropWhile
      wsNotNL).dropWhile (· ≠ '\n')).drop 1 = pre ++ tail.drop 1
    rw [hrem]

lemma decode_step_none (L E : Str) (h : splitFirstCI L E = none) :
    extractLabel L E = none ∧ removeLabelLine L E = E := by
  unfold extractLabel removeLabelLine
  rw [h]
  exact ⟨rfl, rfl⟩

lemma search_front (p desc B preB suf : Str) (hp : p ≠ [])
    (hnl : (p.all fun a => lcChar a != '\n') = true)
    (hdesc : splitFirstCI p desc = none)
    (hB : splitFirstCI p B = some (preB, suf)) :
    splitFirstCI p (frontD desc ++ B) = some (frontD desc ++ preB, suf) := by
  rw [splitFirstCI_peel p _ B (frontD_blocksAll p desc hp hnl hdesc), hB]
  rfl

lemma search_front_none (p desc B : Str) (hp : p ≠ [])
    (hnl : (p.all fun a => lcChar a != '\n') = true)
    (hdesc : splitFirstCI p desc = none) (hB : splitFirstCI p B = none) :
    splitFirstCI p (frontD desc ++ B) = none :=
  splitFirstCI_none_append p _ B (frontD_blocksAll p desc hp hnl hdesc) hB

lemma search_skip_line (p A V rest preB suf : Str) (hp : p ≠ [])
    (hnl : (p.all fun a => lcChar a != '\n') = true)
    (hblock : blocksPrefix p A = true) (hV : splitFirstCI p V = none)
    (hrest : splitFirstCI p rest = some (preB, suf)) :
    splitFirstCI p ((A ++ V) ++ '\n' :: rest) =
      some (((A ++ V) ++ ['\n']) ++ preB, suf) := by
  have hline : splitFirstCI p (A ++ V) = none := blocksPrefix_sound p A V hblock hV
  have hBA : BlocksAll p ((A ++ V) ++ ['\n']) :=
    blocksAll_of_none p (A ++ V) hp hnl hline
  have h2 := splitFirstCI_peel p ((A ++ V) ++ ['\n']) rest hBA
  rw [hrest] at h2
  have hshape : ((A ++ V) ++ ['\n']) ++ rest = (A ++ V) ++ '\n' :: rest := by
    simp
  rw [hshape] at h2
  simpa using h2

lemma search_skip_line_none (p A V rest : Str) (hp : p ≠ [])
    (hnl : (p.all fun a => lcChar a != '\n') = true)
    (hblock : blocksPrefix p A = true) (hV : splitFirstCI p V = none)
    (hrest : splitFirstCI p rest = none) :
    splitFirstCI p ((A ++ V) ++ '\n' :: rest) = none := by
  have hline : splitFirstCI p (A ++ V) = none := blocksPrefix_sound p A V hblock hV
  have hBA : BlocksAll p ((A ++ V) ++ ['\n']) :=
    blocksAll_of_none p (A ++ V) hp hnl hline
  have h2 := splitFirstCI_none_append p ((A ++ V) ++ ['\n']) rest hBA hrest
  have hshape : ((A ++ V) ++ ['\n']) ++ rest = (A ++ V) ++ '\n' :: rest := by
    simp
  rwa [hshape] at h2

lemma search_line_here (p A V tail : Str) (hm : isPrefixCI p A = true)
    (hA : A ≠ []) :
    splitFirstCI p ((A ++ V) ++ tail) = some ([], (A ++ V) ++ tail) := by
  apply splitFirstCI_at_line
  · have h2 : isPrefixCI p (A ++ (V ++ tail)) = true :=
      isPrefixCI_append_right p A (V ++ tail) hm
    simpa [List.append_assoc] using h2
  · simp [hA]

lemma search_line_alone (p A V : Str) (hm : isPrefixCI p A = true)
    (hA : A ≠ []) :
    splitFirstCI p (A ++ V) = some ([], A ++ V) := by
  apply splitFirstCI_at_line
  · exact isPrefixCI_append_right p A V hm
  · simp [hA]

lemma line_none (p A V : Str) (hblock : blocksPrefix p A = true)
    (hV : splitFirstCI p V = none) : splitFirstCI p (A ++ V) = none :=
  blocksPrefix_sound p A V hblock hV

lemma isPrefixCI_of_take (p : Str) :
    ∀ (t : Str) (k : Nat), isPrefixCI p (t.take k) = true →
      isPrefixCI p t = true := by
  induction p with
  | nil =>
    intro t k _
    rfl
  | cons a p2 ih =>
    intro t k h
    match t, k with
    | [], _ => simpa using h
    | b :: t2, 0 => simp [isPrefixCI] at h
    | b :: t2, k + 1 =>
      rw [List.take_succ_cons] at h
      simp only [isPrefixCI, Bool.and_eq_true] at h ⊢
      exact ⟨h.1, ih t2 k h.2⟩

lemma splitFirstCI_eq_none_of (p : Str) :
    ∀ s : Str, (∀ n, isPrefixCI p (s.drop n) = false) →
      splitFirstCI p s = none := by
  intro s
  induction s with
  | nil =>
    intro h
    rw [splitFirstCI, if_neg]
    simpa using h 0
  | cons c s2 ih =>
    intro h
    rw [splitFirstCI_cons_neg p c s2 (by simpa using h 0),
      ih (fun n => by simpa using h (n + 1))]
    rfl

lemma splitFirstCI_none_take (p s : Str) (h : splitFirstCI p s = none)
    (k : Nat) : splitFirstCI p (s.take k) = none := by
  apply splitFirstCI_eq_none_of
  intro n
  rw [List.drop_take]
  by_cases hp : isPrefixCI p ((s.drop n).take (k - n)) = true
  · have h2 := isPrefixCI_of_take p (s.drop n) (k - n) hp
    rw [splitFirstCI_none_drops p s h n] at h2
    exact absurd h2 (by simp)
  · revert hp
    cases isPrefixCI p ((s.drop n).take (k - n)) <;> simp

lemma dtw_take (s : Str) : ∃ m, dropTrailingWS s = s.take m := by
  induction s with
  | nil => exact ⟨0, rfl⟩
  | cons c s2 ih =>
    obtain ⟨m, hm⟩ := ih
    cases h : dropTrailingWS s2 with
    | nil =>
      by_cases hc : isJsSpace c = true
      · refine ⟨0, ?_⟩
        rw [dropTrailingWS, h]
        simp [hc]
      · refine ⟨1, ?_⟩
        rw [dropTrailingWS, h]
        simp at hc
        simp [hc]
    | cons d r =>
      refine ⟨m + 1, ?_⟩
      rw [dropTrailingWS, h, List.take_succ_cons, ← hm, h]

lemma splitFirstCI_none_trim (p s : Str) (h : splitFirstCI p s = none) :
    splitFirstCI p (trimJS s) = none := by
  unfold trimJS
  obtain ⟨m, hm⟩ := dtw_take (s.dropWhile isJsSpace)
  rw [hm]
  exact splitFirstCI_none_take p _ (splitFirstCI_none_dropWhile p isJsSpace s h) m

lemma dtw_last (s : Str) :
    ∀ c, (dropTrailingWS s).getLast? = some c → isJsSpace c = false := by
  induction s with
  | nil =>
    intro c hc
    simp [dropTrailingWS] at hc
  | cons a s2 ih =>
    intro c hc
    cases h : dropTrailingWS s2 with
    | nil =>
      rw [dropTrailingWS, h] at hc
      by_cases ha : isJsSpace a = true
      · rw [if_pos ha] at hc
        simp at hc
      · rw [if_neg ha] at hc
        simp at hc
        subst hc
        revert ha
        cases isJsSpace a <;> simp
    | cons d r =>
      rw [dropTrailingWS, h] at hc
      rw [List.getLast?_cons_cons] at hc
      apply ih
      rw [h]
      exact hc

lemma dtw_head (a : Char) (s : Str) :
    dropTrailingWS (a :: s) = [] ∨ ∃ r, dropTrailingWS (a :: s) = a :: r := by
  rw [dropTrailingWS]
  cases h : dropTrailingWS s with
  | nil =>
    by_cases ha : isJsSpace a = true
    · left
      simp [ha]
    · right
      exact ⟨[], by simp [ha]⟩
  | cons d r => exact Or.inr ⟨d :: r, rfl⟩

lemma trimJS_idem (s : Str) : trimJS (trimJS s) = trimJS s := by
  have hdw : (trimJS s).dropWhile isJsSpace = trimJS s := by
    unfold trimJS
    cases h : s.dropWhile isJsSpace with
    | nil => rfl
    | cons a t =>
      have ha : isJsSpace a = false := dropWhile_head_false isJsSpace s a t h
      rcases dtw_head a t with h2 | ⟨r, h2⟩
      · rw [h2]
        rfl
      · rw [h2, List.dropWhile_cons, if_neg (by simp [ha])]
  show dropTrailingWS ((trimJS s).dropWhile isJsSpace) = trimJS s
  rw [hdw]
  exact dtw_eq_self (trimJS s) (fun c hc => dtw_last (s.dropWhile isJsSpace) c hc)

lemma intercalate1 (a : Str) : List.intercalate ['\n'] [a] = a := by
  simp [List.intercalate, List.intersperse]

lemma intercalate2 (a b : Str) :
    List.intercalate ['\n'] [a, b] = a ++ '\n' :: b := by
  simp [List.intercalate, List.intersperse]

lemma intercalate3 (a b c : Str) :
    List.intercalate ['\n'] [a, b, c] = a ++ '\n' :: (b ++ '\n' :: c) := by
  simp [List.intercalate, List.intersperse]

lemma encode_mxs (d M X S : Str) (hm : M ≠ []) (hx : X ≠ []) (hs : S ≠ []) :
    encodeDescription d M X S =
      trimJS (d ++ '\n' :: '\n' ::
        ((medPrefix ++ M) ++ '\n' :: ((dimPrefix ++ X) ++ '\n' :: (disPrefix ++ S)))) := by
  simp only [encodeDescription, hm, hx, hs, if_true, ne_eq, not_false_eq_true,
    List.singleton_append, List.cons_append, List.nil_append]
  rw [if_neg (by simp), intercalate3]

lemma encode_mx0 (d M X : Str) (hm : M ≠ []) (hx : X ≠ []) :
    encodeDescription d M X [] =
      trimJS (d ++ '\n' :: '\n' ::
        ((medPrefix ++ M) ++ '\n' :: (dimPrefix ++ X))) := by
  simp only [encodeDescription, hm, hx, if_true, ne_eq, not_false_eq_true,
    not_true_eq_false, if_false, List.append_nil,
    List.singleton_append, List.cons_append, List.nil_append]
  rw [if_neg (by simp), intercalate2]

lemma encode_m0s (d M S : Str) (hm : M ≠ []) (hs : S ≠ []) :
    encodeDescription d M [] S =
      trimJS (d ++ '\n' :: '\n' ::
        ((medPrefix ++ M) ++ '\n' :: (disPrefix ++ S))) := by
  simp only [encodeDescription, hm, hs, if_true, ne_eq, not_false_eq_true,
    not_true_eq_false, if_false, List.append_nil,
    List.singleton_append, List.cons_append, List.nil_append]
  rw [if_neg (by simp), intercalate2]

lemma encode_m00 (d M : Str) (hm : M ≠ []) :
    encodeDescription d M [] [] =
      trimJS (d ++ '\n' :: '\n' :: (medPrefix ++ M)) := by
  simp only [encodeDescription, hm, if_true, ne_eq, not_false_eq_true,
    not_true_eq_false, if_false, List.append_nil,
    List.singleton_append, List.cons_append, List.nil_append]
  rw [if_neg (by simp), intercalate1]

lemma encode_0xs (d X S : Str) (hx : X ≠ []) (hs : S ≠ []) :
    encodeDescription d [] X S =
      trimJS (d ++ '\n' :: '\n' ::
        ((dimPrefix ++ X) ++ '\n' :: (disPrefix ++ S))) := by
  simp only [encodeDescription, hx, hs, if_true, ne_eq, not_false_eq_true,
    not_true_eq_false, if_false, List.append_nil,
    List.singleton_append, List.cons_append, List.nil_append]
  rw [if_neg (by simp), intercalate2]

lemma encode_0x0 (d X : Str) (hx : X ≠ []) :
    encodeDescription d [] X [] =
      trimJS (d ++ '\n' :: '\n' :: (dimPrefix ++ X)) := by
  simp only [encodeDescription, hx, if_true, ne_eq, not_false_eq_true,
    not_true_eq_false, if_false, List.append_nil,
    List.singleton_append, List.cons_append, List.nil_append]
  rw [if_neg (by simp), intercalate1]

lemma encode_00s (d S : Str) (hs : S ≠ []) :
    encodeDescription d [] [] S =
      trimJS (d ++ '\n' :: '\n' :: (disPrefix ++ S)) := by
  simp only [encodeDescription, hs, if_true, ne_eq, not_false_eq_true,
    not_true_eq_false, if_false, List.append_nil,
    List.singleton_append, List.cons_append, List.nil_append]
  rw [if_neg (by simp), intercalate1]

lemma encode_000 (d : Str) : encodeDescription d [] [] [] = trimJS d := by
  simp [encodeDescription]

lemma splitFirstCI_nl_singleton (p : Str) (hp : p ≠ [])
    (hnl : (p.all fun a => lcChar a != '\n') = true) :
    splitFirstCI p ['\n'] = none := by
  rw [splitFirstCI_cons_neg p '\n' [] (isPrefixCI_nl_head p hp hnl [])]
  rw [splitFirstCI, if_neg (by simp [isPrefixCI]; match p, hp with | a :: p2, _ => simp [isPrefixCI])]
  rfl

lemma splitFirstCI_frontD_none (p desc : Str) (hp : p ≠ [])
    (hnl : (p.all fun a => lcChar a != '\n') = true)
    (hdesc : splitFirstCI p desc = none) :
    splitFirstCI p (frontD desc) = none := by
  unfold frontD
  cases h : desc.dropWhile isJsSpace with
  | nil =>
    rw [splitFirstCI, if_neg]
    match p, hp with
    | a :: p2, _ => simp [isPrefixCI]
  | cons d r =>
    have hno : splitFirstCI p (d :: r) = none := by
      rw [← h]
      exact splitFirstCI_none_dropWhile p isJsSpace desc hdesc
    have h1 : BlocksAll p ((d :: r) ++ ['\n']) :=
      blocksAll_of_none p (d :: r) hp hnl hno
    have h2 := splitFirstCI_none_append p ((d :: r) ++ ['\n']) ['\n'] h1
      (splitFirstCI_nl_singleton p hp hnl)
    have hshape : ((d :: r) ++ ['\n']) ++ ['\n'] = (d :: r) ++ ['\n', '\n'] := by
      simp
    rwa [hshape] at h2

lemma decode_both (E M X : Str)
    (hextM : extractLabel medLabel E = some M)
    (hextX : extractLabel dimLabel E = some X) :
    decodeDescription E =
      ⟨trimJS (removeLabelLine disLabel (removeLabelLine dimLabel
        (removeLabelLine medLabel E))), trimJS M, trimJS X⟩ := by
  unfold decodeDescription
  rw [hextM, hextX]
  simp

lemma decode_med_only (E M : Str)
    (hextM : extractLabel medLabel E = some M)
    (hextX : extractLabel dimLabel E = none) :
    decodeDescription E =
      ⟨trimJS (removeLabelLine disLabel (removeLabelLine medLabel E)),
        trimJS M, []⟩ := by
  unfold decodeDescription
  rw [hextM, hextX]
  simp

lemma decode_dim_only (E X : Str)
    (hextM : extractLabel medLabel E = none)
    (hextX : extractLabel dimLabel E = some X) :
    decodeDescription E =
      ⟨trimJS (removeLabelLine disLabel (removeLabelLine dimLabel E)),
        [], trimJS X⟩ := by
  unfold decodeDescription
  rw [hextM, hextX]
  simp

lemma decode_none_found (E : Str)
    (hextM : extractLabel medLabel E = none)
    (hextX : extractLabel dimLabel E = none) :
    decodeDescription E =
      ⟨trimJS (removeLabelLine disLabel E), [], []⟩ := by
  unfold decodeDescription
  rw [hextM, hextX]
  simp

lemma getLast?_after_nl (l rest : Str) (hrest : rest ≠ []) :
    (l ++ '\n' :: rest).getLast? = rest.getLast? := by
  rw [getLast?_append_ne l _ (by simp)]
  show (['\n'] ++ rest).getLast? = rest.getLast?
  exact getLast?_append_ne ['\n'] rest hrest

/-- Claim C2 counterexample: the description `uses medium: acrylic` has no
LINE beginning with a label (`noLabelLineStart` holds, the spec's stated
hypothesis), and the metadata values are well-formed, yet decoding the
encoding does not recover the medium (`acrylic` comes back instead of
`Oil`) and the clean description differs from the trimmed original: the
decoder's case-insensitive search also matches labels mid-line. Moreover
the decoder never returns a discounts field at all. -/
theorem c2_counterexample :
    noLabelLineStart c2Desc = true ∧
    fieldValueOk c2Med = true ∧ fieldValueOk c2Dims = true ∧
    fieldValueOk c2Dis = true ∧
    (decodeDescription (encodeDescription c2Desc c2Med c2Dims c2Dis)).medium
      ≠ c2Med ∧
    (decodeDescription
      (encodeDescription c2Desc c2Med c2Dims c2Dis)).cleanDescription
      ≠ trimJS c2Desc := by
  decide

/-- Claim C2 (amended): for every description with NO case-insensitive
occurrence of any label anywhere in it, and label-free, newline-free,
whitespace-trimmed metadata values, decoding the encoded description
recovers medium and dimensions exactly and the clean description equals
the trimmed original. (Discounts are encoded but the decoder never
returns them; it only strips the Discounts line.) -/
theorem c2_codec_roundtrip_amended :
    ∀ desc M X S : Str, labelFree desc = true → fieldValueOk M = true →
      fieldValueOk X = true → fieldValueOk S = true →
      decodeDescription (encodeDescription desc M X S) =
        ⟨trimJS desc, M, X⟩ := by
  intro desc M X S hdesc hM hX hS
  have hMedNe : medLabel ≠ [] := by decide
  have hDimNe : dimLabel ≠ [] := by decide
  have hDisNe : disLabel ≠ [] := by decide
  have hMedNl : (medLabel.all fun a => lcChar a != '\n') = true := by decide
  have hDimNl : (dimLabel.all fun a => lcChar a != '\n') = true := by decide
  have hDisNl : (disLabel.all fun a => lcChar a != '\n') = true := by decide
  have hdescParts : splitFirstCI medLabel desc = none ∧
      splitFirstCI dimLabel desc = none ∧ splitFirstCI disLabel desc = none := by
    unfold labelFree at hdesc
    simp only [Bool.and_eq_true, Option.isNone_iff_eq_none] at hdesc
    exact ⟨hdesc.1.1, hdesc.1.2, hdesc.2⟩
  obtain ⟨hdescMed, hdescDim, hdescDis⟩ := hdescParts
  have bDimMed : blocksPrefix dimLabel medPrefix = true := by decide
  have bMedDim : blocksPrefix medLabel dimPrefix = true := by decide
  have bMedDis : blocksPrefix medLabel disPrefix = true := by decide
  have bDimDis : blocksPrefix dimLabel disPrefix = true := by decide
  by_cases hm : M = []
  · by_cases hx : X = []
    · by_cases hs : S = []
      · -- no labelled lines at all
        subst hm
        subst hx
        subst hs
        rw [encode_000]
        have h1 : splitFirstCI medLabel (trimJS desc) = none :=
          splitFirstCI_none_trim medLabel desc hdescMed
        have h2 : splitFirstCI dimLabel (trimJS desc) = none :=
          splitFirstCI_none_trim dimLabel desc hdescDim
        have h3 : splitFirstCI disLabel (trimJS desc) = none :=
          splitFirstCI_none_trim disLabel desc hdescDis
        rw [decode_none_found (trimJS desc) (decode_step_none medLabel _ h1).1
          (decode_step_none dimLabel _ h2).1,
          (decode_step_none disLabel _ h3).2, trimJS_idem]
      · -- only a Discounts line
        subst hm
        subst hx
        have hE : encodeDescription desc [] [] S =
            frontD desc ++ (disPrefix ++ S) := by
          rw [encode_00s desc S hs]
          apply trim_encode_form
          · simp [disPrefix]
          · intro c hc
            cases hc
            decide
          · intro c hc
            rw [getLast?_append_ne disPrefix S hs] at hc
            exact fv_last S hS c hc
        have hBmed : splitFirstCI medLabel (disPrefix ++ S) = none :=
          line_none medLabel disPrefix S bMedDis (fv_splitMed S hS)
        have hBdim : splitFirstCI dimLabel (disPrefix ++ S) = none :=
          line_none dimLabel disPrefix S bDimDis (fv_splitDim S hS)
        have hsE_med := search_front_none medLabel desc (disPrefix ++ S)
          hMedNe hMedNl hdescMed hBmed
        have hsE_dim := search_front_none dimLabel desc (disPrefix ++ S)
          hDimNe hDimNl hdescDim hBdim
        have hs_dis : splitFirstCI disLabel (frontD desc ++ (disPrefix ++ S)) =
            some (frontD desc, disPrefix ++ S) := by
          have h2 := search_front disLabel desc (disPrefix ++ S) []
            (disPrefix ++ S) hDisNe hDisNl hdescDis
            (search_line_alone disLabel disPrefix S (by decide) (by decide))
          rwa [List.append_nil] at h2
        have hremS : removeLabelLine disLabel
            (frontD desc ++ (disPrefix ++ S)) = frontD desc := by
          have h2 := (decode_step_found disLabel disPrefix S (frontD desc) []
            (frontD desc ++ (disPrefix ++ S))
            (by rw [hs_dis]; simp)
            (by decide) (by decide) hs (fv_head S hS) (fv_no_nl S hS)
            (Or.inl rfl)).2
          simpa using h2
        rw [hE, decode_none_found _ (decode_step_none medLabel _ hsE_med).1
          (decode_step_none dimLabel _ hsE_dim).1, hremS, trimJS_frontD]
    · by_cases hs : S = []
      · -- only a Dimensions line
        subst hm
        subst hs
        have hE : encodeDescription desc [] X [] =
            frontD desc ++ (dimPrefix ++ X) := by
          rw [encode_0x0 desc X hx]
          apply trim_encode_form
          · simp [dimPrefix]
          · intro c hc
            cases hc
            decide
          · intro c hc
            rw [getLast?_append_ne dimPrefix X hx] at hc
            exact fv_last X hX c hc
        have hBmed : splitFirstCI medLabel (dimPrefix ++ X) = none :=
          line_none medLabel dimPrefix X bMedDim (fv_splitMed X hX)
        have hsE_med := search_front_none medLabel desc (dimPrefix ++ X)
          hMedNe hMedNl hdescMed hBmed
        have hs_dim : splitFirstCI dimLabel (frontD desc ++ (dimPrefix ++ X)) =
            some (frontD desc, dimPrefix ++ X) := by
          have h2 := search_front dimLabel desc (dimPrefix ++ X) []
            (dimPrefix ++ X) hDimNe hDimNl hdescDim
            (search_line_alone dimLabel dimPrefix X (by decide) (by decide))
          rwa [List.append_nil] at h2
        have hstep_dim := decode_step_found dimLabel dimPrefix X (frontD desc)
          [] (frontD desc ++ (dimPrefix ++ X))
          (by rw [hs_dim]; simp)
          (by decide) (by decide) hx (fv_head X hX) (fv_no_nl X hX)
          (Or.inl rfl)
        have hremX : removeLabelLine dimLabel
            (frontD desc ++ (dimPrefix ++ X)) = frontD desc := by
          have h2 := hstep_dim.2
          simpa using h2
        have hdisF : splitFirstCI disLabel (frontD desc) = none :=
          splitFirstCI_frontD_none disLabel desc hDisNe hDisNl hdescDis
        rw [hE, decode_dim_only _ X (decode_step_none medLabel _ hsE_med).1
          hstep_dim.1, hremX, (decode_step_none disLabel _ hdisF).2,
          trimJS_frontD, fv_trim X hX]
      · -- Dimensions and Discounts lines
        subst hm
        have hE : encodeDescription desc [] X S =
            frontD desc ++ ((dimPrefix ++ X) ++ '\n' :: (disPrefix ++ S)) := by
          rw [encode_0xs desc X S hx hs]
          apply trim_encode_form
          · simp [dimPrefix]
          · intro c hc
            cases hc
            decide
          · intro c hc
            rw [getLast?_after_nl _ _ (by simp [disPrefix]),
              getLast?_append_ne disPrefix S hs] at hc
            exact fv_last S hS c hc
        have hBmed : splitFirstCI medLabel
            ((dimPrefix ++ X) ++ '\n' :: (disPrefix ++ S)) = none :=
          search_skip_line_none medLabel dimPrefix X (disPrefix ++ S)
            hMedNe hMedNl bMedDim (fv_splitMed X hX)
            (line_none medLabel disPrefix S bMedDis (fv_splitMed S hS))
        have hsE_med := search_front_none medLabel desc
          ((dimPrefix ++ X) ++ '\n' :: (disPrefix ++ S))
          hMedNe hMedNl hdescMed hBmed
        have hs_dim : splitFirstCI dimLabel
            (frontD desc ++ ((dimPrefix ++ X) ++ '\n' :: (disPrefix ++ S))) =
            some (frontD desc, (dimPrefix ++ X) ++ '\n' :: (disPrefix ++ S)) := by
          have h2 := search_front dimLabel desc
            ((dimPrefix ++ X) ++ '\n' :: (disPrefix ++ S)) []
            ((dimPrefix ++ X) ++ '\n' :: (disPrefix ++ S)) hDimNe hDimNl
            hdescDim (search_line_here dimLabel dimPrefix X
              ('\n' :: (disPrefix ++ S)) (by decide) (by decide))
          rwa [List.append_nil] at h2
        have hstep_dim := decode_step_found dimLabel dimPrefix X (frontD desc)
          ('\n' :: (disPrefix ++ S))
          (frontD desc ++ ((dimPrefix ++ X) ++ '\n' :: (disPrefix ++ S)))
          (by rw [hs_dim]; simp [List.append_assoc])
          (by decide) (by decide) hx (fv_head X hX) (fv_no_nl X hX)
          (Or.inr ⟨_, rfl⟩)
        have hremX : removeLabelLine dimLabel
            (frontD desc ++ ((dimPrefix ++ X) ++ '\n' :: (disPrefix ++ S))) =
            frontD desc ++ (disPrefix ++ S) := by
          have h2 := hstep_dim.2
          simpa using h2
        have hs_dis : splitFirstCI disLabel
            (frontD desc ++ (disPrefix ++ S)) =
            some (frontD desc, disPrefix ++ S) := by
          have h2 := search_front disLabel desc (disPrefix ++ S) []
            (disPrefix ++ S) hDisNe hDisNl hdescDis
            (search_line_alone disLabel disPrefix S (by decide) (by decide))
          rwa [List.append_nil] at h2
        have hremS : removeLabelLine disLabel
            (frontD desc ++ (disPrefix ++ S)) = frontD desc := by
          have h2 := (decode_step_found disLabel disPrefix S (frontD desc) []
            (frontD desc ++ (disPrefix ++ S))
            (by rw [hs_dis]; simp)
            (by decide) (by decide) hs (fv_head S hS) (fv_no_nl S hS)
            (Or.inl rfl)).2
          simpa using h2
        rw [hE, decode_dim_only _ X (decode_step_none medLabel _ hsE_med).1
          hstep_dim.1, hremX, hremS, trimJS_frontD, fv_trim X hX]
  · by_cases hx : X = []
    · by_cases hs : S = []
      · -- only a Medium line
        subst hx
        subst hs
        have hE : encodeDescription desc M [] [] =
            frontD desc ++ (medPrefix ++ M) := by
          rw [encode_m00 desc M hm]
          apply trim_encode_form
          · simp [medPrefix]
          · intro c hc
            cases hc
            decide
          · intro c hc
            rw [getLast?_append_ne medPrefix M hm] at hc
            exact fv_last M hM c hc
        have hs_med : splitFirstCI medLabel (frontD desc ++ (medPrefix ++ M)) =
            some (frontD desc, medPrefix ++ M) := by
          have h2 := search_front medLabel desc (medPrefix ++ M) []
            (medPrefix ++ M) hMedNe hMedNl hdescMed
            (search_line_alone medLabel medPrefix M (by decide) (by decide))
          rwa [List.append_nil] at h2
        have hstep_med := decode_step_found medLabel medPrefix M (frontD desc)
          [] (frontD desc ++ (medPrefix ++ M))
          (by rw [hs_med]; simp)
          (by decide) (by decide) hm (fv_head M hM) (fv_no_nl M hM)
          (Or.inl rfl)
        have hremM : removeLabelLine medLabel
            (frontD desc ++ (medPrefix ++ M)) = frontD desc := by
          have h2 := hstep_med.2
          simpa using h2
        have hBdim : splitFirstCI dimLabel (medPrefix ++ M) = none :=
          line_none dimLabel medPrefix M bDimMed (fv_splitDim M hM)
        have hsE_dim := search_front_none dimLabel desc (medPrefix ++ M)
          hDimNe hDimNl hdescDim hBdim
        have hdisF : splitFirstCI disLabel (frontD desc) = none :=
          splitFirstCI_frontD_none disLabel desc hDisNe hDisNl hdescDis
        rw [hE, decode_med_only _ M hstep_med.1
          (decode_step_none dimLabel _ hsE_dim).1, hremM,
          (decode_step_none disLabel _ hdisF).2, trimJS_frontD, fv_trim M hM]
      · -- Medium and Discounts lines
        subst hx
        have hE : encodeDescription desc M [] S =
            frontD desc ++ ((medPrefix ++ M) ++ '\n' :: (disPrefix ++ S)) := by
          rw [encode_m0s desc M S hm hs]
          apply trim_encode_form
          · simp [medPrefix]
          · intro c hc
            cases hc
            decide
          · intro c hc
            rw [getLast?_after_nl _ _ (by simp [disPrefix]),
              getLast?_append_ne disPrefix S hs] at hc
            exact fv_last S hS c hc
        have hs_med : splitFirstCI medLabel
            (frontD desc ++ ((medPrefix ++ M) ++ '\n' :: (disPrefix ++ S))) =
            some (frontD desc, (medPrefix ++ M) ++ '\n' :: (disPrefix ++ S)) := by
          have h2 := search_front medLabel desc
            ((medPrefix ++ M) ++ '\n' :: (disPrefix ++ S)) []
            ((medPrefix ++ M) ++ '\n' :: (disPrefix ++ S)) hMedNe hMedNl
            hdescMed (search_line_here medLabel medPrefix M
              ('\n' :: (disPrefix ++ S)) (by decide) (by decide))
          rwa [List.append_nil] at h2
        have hstep_med := decode_step_found medLabel medPrefix M (frontD desc)
          ('\n' :: (disPrefix ++ S))
          (frontD desc ++ ((medPrefix ++ M) ++ '\n' :: (disPrefix ++ S)))
          (by rw [hs_med]; simp [List.append_assoc])
          (by decide) (by decide) hm (fv_head M hM) (fv_no_nl M hM)
          (Or.inr ⟨_, rfl⟩)
        have hremM : removeLabelLine medLabel
            (frontD desc ++ ((medPrefix ++ M) ++ '\n' :: (disPrefix ++ S))) =
            frontD desc ++ (disPrefix ++ S) := by
          have h2 := hstep_med.2
          simpa using h2
        have hBdim : splitFirstCI dimLabel
            ((medPrefix ++ M) ++ '\n' :: (disPrefix ++ S)) = none :=
          search_skip_line_none dimLabel medPrefix M (disPrefix ++ S)
            hDimNe hDimNl bDimMed (fv_splitDim M hM)
            (line_none dimLabel disPrefix S bDimDis (fv_splitDim S hS))
        have hsE_dim := search_front_none dimLabel desc
          ((medPrefix ++ M) ++ '\n' :: (disPrefix ++ S))
          hDimNe hDimNl hdescDim hBdim
        have hs_dis : splitFirstCI disLabel
            (frontD desc ++ (disPrefix ++ S)) =
            some (frontD desc, disPrefix ++ S) := by
          have h2 := search_front disLabel desc (disPrefix ++ S) []
            (disPrefix ++ S) hDisNe hDisNl hdescDis
            (search_line_alone disLabel disPrefix S (by decide) (by decide))
          rwa [List.append_nil] at h2
        have hremS : removeLabelLine disLabel
            (frontD desc ++ (disPrefix ++ S)) = frontD desc := by
          have h2 := (decode_step_found disLabel disPrefix S (frontD desc) []
            (frontD desc ++ (disPrefix ++ S))
            (by rw [hs_dis]; simp)
            (by decide) (by decide) hs (fv_head S hS) (fv_no_nl S hS)
            (Or.inl rfl)).2
          simpa using h2
        rw [hE, decode_med_only _ M hstep_med.1
          (decode_step_none dimLabel _ hsE_dim).1, hremM, hremS,
          trimJS_frontD, fv_trim M hM]
    · by_cases hs : S = []
      · -- Medium and Dimensions lines
        subst hs
        have hE : encodeDescription desc M X [] =
            frontD desc ++ ((medPrefix ++ M) ++ '\n' :: (dimPrefix ++ X)) := by
          rw [encode_mx0 desc M X hm hx]
          apply trim_encode_form
          · simp [medPrefix]
          · intro c hc
            cases hc
            decide
          · intro c hc
            rw [getLast?_after_nl _ _ (by simp [dimPrefix]),
              getLast?_append_ne dimPrefix X hx] at hc
            exact fv_last X hX c hc
        have hs_med : splitFirstCI medLabel
            (frontD desc ++ ((medPrefix ++ M) ++ '\n' :: (dimPrefix ++ X))) =
            some (frontD desc, (medPrefix ++ M) ++ '\n' :: (dimPrefix ++ X)) := by
          have h2 := search_front medLabel desc
            ((medPrefix ++ M) ++ '\n' :: (dimPrefix ++ X)) []
            ((medPrefix ++ M) ++ '\n' :: (dimPrefix ++ X)) hMedNe hMedNl
            hdescMed (search_line_here medLabel medPrefix M
              ('\n' :: (dimPrefix ++ X)) (by decide) (by decide))
          rwa [List.append_nil] at h2
        have hstep_med := decode_step_found medLabel medPrefix M (frontD desc)
          ('\n' :: (dimPrefix ++ X))
          (frontD desc ++ ((medPrefix ++ M) ++ '\n' :: (dimPrefix ++ X)))
          (by rw [hs_med]; simp [List.append_assoc])
          (by decide) (by decide) hm (fv_head M hM) (fv_no_nl M hM)
          (Or.inr ⟨_, rfl⟩)
        have hremM : removeLabelLine medLabel
            (frontD desc ++ ((medPrefix ++ M) ++ '\n' :: (dimPrefix ++ X))) =
            frontD desc ++ (dimPrefix ++ X) := by
          have h2 := hstep_med.2
          simpa using h2
        have hsB_dim : splitFirstCI dimLabel
            ((medPrefix ++ M) ++ '\n' :: (dimPrefix ++ X)) =
            some ((medPrefix ++ M) ++ ['\n'], dimPrefix ++ X) := by
          have h2 := search_skip_line dimLabel medPrefix M (dimPrefix ++ X)
            [] (dimPrefix ++ X) hDimNe hDimNl bDimMed (fv_splitDim M hM)
            (search_line_alone dimLabel dimPrefix X (by decide) (by decide))
          rwa [List.append_nil] at h2
        have hsE_dim : splitFirstCI dimLabel
            (frontD desc ++ ((medPrefix ++ M) ++ '\n' :: (dimPrefix ++ X))) =
            some (frontD desc ++ ((medPrefix ++ M) ++ ['\n']),
              dimPrefix ++ X) :=
          search_front dimLabel desc _ _ _ hDimNe hDimNl hdescDim hsB_dim
        have hextX : extractLabel dimLabel
            (frontD desc ++ ((medPrefix ++ M) ++ '\n' :: (dimPrefix ++ X))) =
            some X :=
          (decode_step_found dimLabel dimPrefix X
            (frontD desc ++ ((medPrefix ++ M) ++ ['\n'])) []
            (frontD desc ++ ((medPrefix ++ M) ++ '\n' :: (dimPrefix ++ X)))
            (by rw [hsE_dim]; simp)
            (by decide) (by decide) hx (fv_head X hX) (fv_no_nl X hX)
            (Or.inl rfl)).1
        have hs_c1_dim : splitFirstCI dimLabel
            (frontD desc ++ (dimPrefix ++ X)) =
            some (frontD desc, dimPrefix ++ X) := by
          have h2 := search_front dimLabel desc (dimPrefix ++ X) []
            (dimPrefix ++ X) hDimNe hDimNl hdescDim
            (search_line_alone dimLabel dimPrefix X (by decide) (by decide))
          rwa [List.append_nil] at h2
        have hremX : removeLabelLine dimLabel
            (frontD desc ++ (dimPrefix ++ X)) = frontD desc := by
          have h2 := (decode_step_found dimLabel dimPrefix X (frontD desc) []
            (frontD desc ++ (dimPrefix ++ X))
            (by rw [hs_c1_dim]; simp)
            (by decide) (by decide) hx (fv_head X hX) (fv_no_nl X hX)
            (Or.inl rfl)).2
          simpa using h2
        have hdisF : splitFirstCI disLabel (frontD desc) = none :=
          splitFirstCI_frontD_none disLabel desc hDisNe hDisNl hdescDis
        rw [hE, decode_both _ M X hstep_med.1 hextX, hremM, hremX,
          (decode_step_none disLabel _ hdisF).2, trimJS_frontD,
          fv_trim M hM, fv_trim X hX]
      · -- all three lines
        have hE : encodeDescription desc M X S =
            frontD desc ++ ((medPrefix ++ M) ++ '\n' ::
              ((dimPrefix ++ X) ++ '\n' :: (disPrefix ++ S))) := by
          rw [encode_mxs desc M X S hm hx hs]
          apply trim_encode_form
          · simp [medPrefix]
          · intro c hc
            cases hc
            decide
          · intro c hc
            rw [getLast?_after_nl _ _ (by simp [dimPrefix]),
              getLast?_after_nl _ _ (by simp [disPrefix]),
              getLast?_append_ne disPrefix S hs] at hc
            exact fv_last S hS c hc
        have hs_med : splitFirstCI medLabel
            (frontD desc ++ ((medPrefix ++ M) ++ '\n' ::
              ((dimPrefix ++ X) ++ '\n' :: (disPrefix ++ S)))) =
            some (frontD desc, (medPrefix ++ M) ++ '\n' ::
              ((dimPrefix ++ X) ++ '\n' :: (disPrefix ++ S))) := by
          have h2 := search_front medLabel desc
            ((medPrefix ++ M) ++ '\n' ::
              ((dimPrefix ++ X) ++ '\n' :: (disPrefix ++ S))) []
            ((medPrefix ++ M) ++ '\n' ::
              ((dimPrefix ++ X) ++ '\n' :: (disPrefix ++ S))) hMedNe hMedNl
            hdescMed (search_line_here medLabel medPrefix M
              ('\n' :: ((dimPrefix ++ X) ++ '\n' :: (disPrefix ++ S)))
              (by decide) (by decide))
          rwa [List.append_nil] at h2
        have hstep_med := decode_step_found medLabel medPrefix M (frontD desc)
          ('\n' :: ((dimPrefix ++ X) ++ '\n' :: (disPrefix ++ S)))
          (frontD desc ++ ((medPrefix ++ M) ++ '\n' ::
            ((dimPrefix ++ X) ++ '\n' :: (disPrefix ++ S))))
          (by rw [hs_med]; simp [List.append_assoc])
          (by decide) (by decide) hm (fv_head M hM) (fv_no_nl M hM)
          (Or.inr ⟨_, rfl⟩)
        have hremM : removeLabelLine medLabel
            (frontD desc ++ ((medPrefix ++ M) ++ '\n' ::
              ((dimPrefix ++ X) ++ '\n' :: (disPrefix ++ S)))) =
            frontD desc ++ ((dimPrefix ++ X) ++ '\n' :: (disPrefix ++ S)) := by
          have h2 := hstep_med.2
          simpa using h2
        have hsB_dim : splitFirstCI dimLabel
            ((medPrefix ++ M) ++ '\n' ::
              ((dimPrefix ++ X) ++ '\n' :: (disPrefix ++ S))) =
            some ((medPrefix ++ M) ++ ['\n'],
              (dimPrefix ++ X) ++ '\n' :: (disPrefix ++ S)) := by
          have h2 := search_skip_line dimLabel medPrefix M
            ((dimPrefix ++ X) ++ '\n' :: (disPrefix ++ S)) []
            ((dimPrefix ++ X) ++ '\n' :: (disPrefix ++ S)) hDimNe hDimNl
            bDimMed (fv_splitDim M hM)
            (search_line_here dimLabel dimPrefix X ('\n' :: (disPrefix ++ S))
              (by decide) (by decide))
          rwa [List.append_nil] at h2
        have hsE_dim : splitFirstCI dimLabel
            (frontD desc ++ ((medPrefix ++ M) ++ '\n' ::
              ((dimPrefix ++ X) ++ '\n' :: (disPrefix ++ S)))) =
            some (frontD desc ++ ((medPrefix ++ M) ++ ['\n']),
              (dimPrefix ++ X) ++ '\n' :: (disPrefix ++ S)) :=
          search_front dimLabel desc _ _ _ hDimNe hDimNl hdescDim hsB_dim
        have hextX : extractLabel dimLabel
            (frontD desc ++ ((medPrefix ++ M) ++ '\n' ::
              ((dimPrefix ++ X) ++ '\n' :: (disPrefix ++ S)))) = some X :=
          (decode_step_found dimLabel dimPrefix X
            (frontD desc ++ ((medPrefix ++ M) ++ ['\n']))
            ('\n' :: (disPrefix ++ S))
            (frontD desc ++ ((medPrefix ++ M) ++ '\n' ::
              ((dimPrefix ++ X) ++ '\n' :: (disPrefix ++ S))))
            (by rw [hsE_dim]; simp [List.append_assoc])
            (by decide) (by decide) hx (fv_head X hX) (fv_no_nl X hX)
            (Or.inr ⟨_, rfl⟩)).1
        have hs_c1_dim : splitFirstCI dimLabel
            (frontD desc ++ ((dimPrefix ++ X) ++ '\n' :: (disPrefix ++ S))) =
            some (frontD desc,
              (dimPrefix ++ X) ++ '\n' :: (disPrefix ++ S)) := by
          have h2 := search_front dimLabel desc
            ((dimPrefix ++ X) ++ '\n' :: (disPrefix ++ S)) []
            ((dimPrefix ++ X) ++ '\n' :: (disPrefix ++ S)) hDimNe hDimNl
            hdescDim (search_line_here dimLabel dimPrefix X
              ('\n' :: (disPrefix ++ S)) (by decide) (by decide))
          rwa [List.append_nil] at h2
        have hremX : removeLabelLine dimLabel
            (frontD desc ++ ((dimPrefix ++ X) ++ '\n' :: (disPrefix ++ S))) =
            frontD desc ++ (disPrefix ++ S) := by
          have h2 := (decode_step_found dimLabel dimPrefix X (frontD desc)
            ('\n' :: (disPrefix ++ S))
            (frontD desc ++ ((dimPrefix ++ X) ++ '\n' :: (disPrefix ++ S)))
            (by rw [hs_c1_dim]; simp [List.append_assoc])
            (by decide) (by decide) hx (fv_head X hX) (fv_no_nl X hX)
            (Or.inr ⟨_, rfl⟩)).2
          simpa using h2
        have hs_dis : splitFirstCI disLabel
            (frontD desc ++ (disPrefix ++ S)) =
            some (frontD desc, disPrefix ++ S) := by
          have h2 := search_front disLabel desc (disPrefix ++ S) []
            (disPrefix ++ S) hDisNe hDisNl hdescDis
            (search_line_alone disLabel disPrefix S (by decide) (by decide))
          rwa [List.append_nil] at h2
        have hremS : removeLabelLine disLabel
            (frontD desc ++ (disPrefix ++ S)) = frontD desc := by
          have h2 := (decode_step_found disLabel disPrefix S (frontD desc) []
            (frontD desc ++ (disPrefix ++ S))
            (by rw [hs_dis]; simp)
            (by decide) (by decide) hs (fv_head S hS) (fv_no_nl S hS)
            (Or.inl rfl)).2
          simpa using h2
        rw [hE, decode_both _ M X hstep_med.1 hextX, hremM, hremX, hremS,
          trimJS_frontD, fv_trim M hM, fv_trim X hX]

/-- Claim C2 witness: the amended round trip applied at the concrete
description `A forest scene` with medium `Oil`, dimensions `5 x 7` and
discounts `10% off`. -/
theorem c2_codec_roundtrip_amended_witness :
    labelFree c2WDesc = true ∧ fieldValueOk c2Med = true ∧
    fieldValueOk c2Dims = true ∧ fieldValueOk c2Dis = true ∧
    decodeDescription (encodeDescription c2WDesc c2Med c2Dims c2Dis) =
      ⟨trimJS c2WDesc, c2Med, c2Dims⟩ :=
  ⟨by decide, by decide, by decide, by decide,
    c2_codec_roundtrip_amended c2WDesc c2Med c2Dims c2Dis
      (by decide) (by decide) (by decide) (by decide)⟩
